import Mathlib

/-!
Verification of the NTN-B pricing engine (`src/utils/calculator.ts`, second
revision of the file — the one matching `src/types.ts`).

Modelling conventions:
* A JavaScript `Date` holding a UTC midnight is modelled by `JDate`, a civil
  triple (year, 0-based month, day-of-month), together with `JDate.days`, the
  number of calendar days since 1970-01-01 (the ECMAScript day number of the
  timestamp).  All engine-internal date stepping and comparison happens on the
  day number, exactly as the source compares and steps timestamps.
* IEEE doubles are modelled by real numbers; the one place where the source
  branches on finiteness (`truncate`) is additionally modelled on `JsNum`,
  a sum type with explicit non-finite values.
* The holiday table `OFFICIAL_HOLIDAYS` is imported by the source from
  `src/data/holidays`, which is not part of the sources given; the model is
  therefore parameterised over an arbitrary holiday predicate `hol` on day
  numbers, and every theorem quantifies over it.
* The source's `while` loop in `getNextBusinessDay` is unbounded; the model
  uses a fuel of 4000 days, which is equivalent whenever some business day
  exists within 4000 days of the start (true of any real holiday table).
-/

/-- Civil calendar: days since 1970-01-01 of the date (y, m, d) with 0-based
month m ∈ [0,11] and day-of-month d, via the standard era/day-of-year
formulas.  This is the mathematical day-number function that ECMAScript's
`Date.UTC`/`getTime` implement.  All divisors are positive so Euclidean
division coincides with floor division. -/
def daysFromCivil (y m d : ℤ) : ℤ :=
  let y1 := if m ≤ 1 then y - 1 else y
  let era := Int.ediv y1 400
  let yoe := Int.emod y1 400
  let mp := Int.emod (m + 10) 12
  let doy := Int.ediv (153 * mp + 2) 5 + d - 1
  let doe := yoe * 365 + Int.ediv yoe 4 - Int.ediv yoe 100 + doy
  era * 146097 + doe - 719468

/-- Year of a day number (inverse direction of `daysFromCivil`, year
component), used for the portfolio aggregation's `getUTCFullYear`. -/
def yearOfDays (z : ℤ) : ℤ :=
  let z1 := z + 719468
  let era := Int.ediv z1 146097
  let doe := Int.emod z1 146097
  let yoe := Int.ediv (doe - Int.ediv doe 1460 + Int.ediv doe 36524 - Int.ediv doe 146096) 365
  let y := yoe + era * 400
  let doy := doe - (365 * yoe + Int.ediv yoe 4 - Int.ediv yoe 100)
  let mp := Int.ediv (5 * doy + 2) 153
  if 10 ≤ mp then y + 1 else y

/-- A JavaScript `Date` at UTC midnight: the civil triple it displays.
The model keeps triples normalised (month in [0,11], day valid for the
month); the smart constructors below perform the month normalisation that
`Date.UTC`/`setUTCMonth` perform.  Day-of-month overflow never occurs on the
paths the engine takes (constructed days are 15 or a parsed valid day). -/
structure JDate where
  year : ℤ
  month : ℤ
  day : ℤ
deriving DecidableEq

/-- Day number (ECMAScript `getTime() / msPerDay`) of a `JDate`. -/
def JDate.days (dt : JDate) : ℤ := daysFromCivil dt.year dt.month dt.day

/-- `new Date(Date.UTC(y, m, d))` with month normalisation (ECMAScript
`MakeDay`): month overflow/underflow moves the year. -/
def mkUTC (y m d : ℤ) : JDate := ⟨y + Int.ediv m 12, Int.emod m 12, d⟩

/-- `parseDateAsUTC` of the source: splits an ISO string `y-m-d` (1-based
month) and builds `Date.UTC(y, m - 1, d)`. -/
def parseDateAsUTC (y m d : ℤ) : JDate := mkUTC y (m - 1) d

/-- `date.setUTCMonth(m)`: replaces the month, normalising overflow into the
year, keeping the day-of-month (valid here: only used with day ≤ 14). -/
def setUTCMonth (dt : JDate) (m : ℤ) : JDate := ⟨dt.year + Int.ediv m 12, Int.emod m 12, dt.day⟩

/-- `date.getUTCDay()` on a day number: 1970-01-01 was a Thursday (= 4). -/
def getUTCDay (z : ℤ) : ℤ := Int.emod (z + 4) 7

/-- `isWeekend` of the source: Sunday (0) or Saturday (6). -/
def isWeekend (z : ℤ) : Bool := decide (getUTCDay z = 0) || decide (getUTCDay z = 6)

/-- Fuel-bounded body of `getNextBusinessDay`'s `while` loop. -/
def nextBizAux (hol : ℤ → Bool) : ℕ → ℤ → ℤ
  | 0, d => d
  | Nat.succ n, d => if isWeekend d || hol d then nextBizAux hol n (d + 1) else d

/-- `getNextBusinessDay` of the source: steps forward one day at a time while
the current day is a weekend or a holiday. -/
def getNextBusinessDay (hol : ℤ → Bool) (d : ℤ) : ℤ := nextBizAux hol 4000 d

/-- `countBusinessDays` of the source: business days in [start, end), start
inclusive, end exclusive; 0 when start ≥ end. -/
def countBusinessDays (hol : ℤ → Bool) (a b : ℤ) : ℕ :=
  (List.range (b - a).toNat).countP (fun i => !(isWeekend (a + i) || hol (a + i)))

/-- `countCalendarDays` of the source: `Math.round(Math.abs((start - end) / msPerDay))`,
exact on whole-day timestamps. -/
def countCalendarDays (a b : ℤ) : ℕ := (a - b).natAbs

/-- `Math.trunc` (truncation toward zero) on the real model of doubles. -/
noncomputable def jsTruncZ (x : ℝ) : ℤ := if 0 ≤ x then ⌊x⌋ else ⌈x⌉

/-- `truncate(value, decimals)` of the source on its finite branch:
`Math.trunc(value * 10^d) / 10^d`. -/
noncomputable def truncateR (v : ℝ) (dec : ℕ) : ℝ := (jsTruncZ (v * 10 ^ dec) : ℝ) / 10 ^ dec

/-- An IEEE double, split into its finite values and the three non-finite
values, for the one source function that branches on finiteness. -/
inductive JsNum where
  | fin : ℝ → JsNum
  | posInf : JsNum
  | negInf : JsNum
  | nan : JsNum

/-- `isFinite` on the double model. -/
def JsNum.isFinite : JsNum → Bool
  | .fin _ => true
  | _ => false

/-- `truncate` of the source in full: `if (!isFinite(value)) return 0;`
otherwise floor-truncate to `dec` decimals. -/
noncomputable def truncateF (v : JsNum) (dec : ℕ) : JsNum :=
  match v with
  | .fin x => .fin (truncateR x dec)
  | _ => .fin 0

/-- `SEMI_ANNUAL_COUPON_RATE` of the source (second revision):
`Math.pow(1.06, 0.5) - 1`. -/
noncomputable def SEMI_ANNUAL_COUPON_RATE : ℝ := (1.06 : ℝ) ^ (0.5 : ℝ) - 1

/-- Cash-flow kind: `'J'` (interest/coupon) or `'P'` (principal). -/
inductive FType where
  | J : FType
  | P : FType
deriving DecidableEq

/-- The date/kind skeleton of a cash flow, before the monetary fields. -/
structure FlowEv where
  date : ℤ
  ftype : FType
deriving DecidableEq

/-- A cash-flow event as produced in Step 6 of `calculateNTNB`. -/
structure CashFlow where
  date : ℤ
  ftype : FType
  businessDays : ℕ
  rate : ℝ
  futureValue : ℝ
  presentValue : ℝ
  cumulativePresentValue : ℝ

/-- `FormData` of `src/types.ts`; the two date strings are modelled as parsed
dates, `none` standing for an empty/absent string. -/
structure FormData where
  quantity : ℝ
  purchaseDate : Option JDate
  maturityDate : Option JDate
  purchaseRate : ℝ
  vnaPrevious : ℝ
  projectedIpca : ℝ

/-- `CalculationResult` of `src/types.ts`. -/
structure CalculationResult where
  totalInvestment : ℝ
  unitPrice : ℝ
  quotation : ℝ
  grossAmountReturned : ℝ
  grossProfit : ℝ
  duration : ℝ
  cashFlows : List CashFlow
  formData : FormData
  calculatedVna : ℝ

/-- Step 1 of `calculateNTNB`, `startReferenceDate`: the 15th of the current
month when the purchase day-of-month is ≥ 15, otherwise the 15th of the
previous month (reached through `setUTCMonth(month - 1)`). -/
def startReferenceDate (p : JDate) : JDate :=
  if 15 ≤ p.day then mkUTC p.year p.month 15
  else (let pm := setUTCMonth p (p.month - 1); mkUTC pm.year pm.month 15)

/-- Step 1 of `calculateNTNB`, `endReferenceDate`: the 15th of the next month
when the purchase day-of-month is ≥ 15, otherwise the 15th of the current
month. -/
def endReferenceDate (p : JDate) : JDate :=
  if 15 ≤ p.day then mkUTC p.year (p.month + 1) 15
  else mkUTC p.year p.month 15

/-- Step 1 of `calculateNTNB`: projected VNA.  Exponent is the calendar-day
ratio between the reference dates; result is floor-truncated to 6 decimals. -/
noncomputable def vnaOf (fd : FormData) (p : JDate) : ℝ :=
  let daysNumerator := countCalendarDays (startReferenceDate p).days p.days
  let daysDenominator := countCalendarDays (startReferenceDate p).days (endReferenceDate p).days
  let exponentX : ℝ := (daysNumerator : ℝ) / (daysDenominator : ℝ)
  let ipcaDecimal := fd.projectedIpca / 100
  truncateR (fd.vnaPrevious * (1 + ipcaDecimal) ^ exponentX) 6

/-- Step 2 of `calculateNTNB`: the coupon cycle months picked from the
maturity month (0-based): Feb/Aug when maturity is in Feb or Aug, else
May/Nov. -/
def couponMonths (mdt : JDate) : ℤ × ℤ :=
  if mdt.month = 1 ∨ mdt.month = 7 then (1, 7) else (4, 10)

/-- Step 3, first half: candidate coupon dates — the 15th of each cycle month
for every year from the purchase year through the maturity year. -/
def potentialDates (p mdt : JDate) : List ℤ :=
  let c := couponMonths mdt
  (List.range (mdt.year - p.year + 1).toNat).flatMap
    (fun i => [(mkUTC (p.year + i) c.1 15).days, (mkUTC (p.year + i) c.2 15).days])

/-- Step 3, second half: keep candidates strictly after purchase and at most
maturity, adjust each to the next business day as an interest flow, append
the adjusted maturity as the principal flow. -/
def flowsOfUnsorted (hol : ℤ → Bool) (p mdt : JDate) : List FlowEv :=
  ((potentialDates p mdt).filter
      (fun d => decide (p.days < d) && decide (d ≤ mdt.days))).map
    (fun d => { date := getNextBusinessDay hol d, ftype := FType.J })
  ++ [{ date := getNextBusinessDay hol mdt.days, ftype := FType.P }]

/-- Step 3, sort: `flows.sort((a, b) => a.date - b.date)` — a stable sort by
date. -/
def sortedFlows (hol : ℤ → Bool) (p mdt : JDate) : List FlowEv :=
  (flowsOfUnsorted hol p mdt).mergeSort (fun a b => decide (a.date ≤ b.date))

/-- Step 4 of `calculateNTNB`: the quotation sum, accumulated over the sorted
flows: coupon rate (interest) or 1.0 (principal), discounted by
`(1 + rate)^(du/252)`. -/
noncomputable def quotationSumOf (hol : ℤ → Bool) (p mdt : JDate) (rateDecimal : ℝ) : ℝ :=
  (sortedFlows hol p mdt).foldl
    (fun q f =>
      q + (match f.ftype with | FType.J => SEMI_ANNUAL_COUPON_RATE | FType.P => (1 : ℝ)) /
        (1 + rateDecimal) ^ ((countBusinessDays hol p.days f.date : ℝ) / 252)) 0

/-- Step 6 of `calculateNTNB`: build the output cash flows, carrying the
per-unit cumulative present value, all monetary fields scaled by quantity. -/
noncomputable def buildFlows (hol : ℤ → Bool) (pD : ℤ) (vna rateDecimal qty : ℝ) :
    List FlowEv → ℝ → List CashFlow
  | [], _ => []
  | f :: rest, cum =>
    let du := countBusinessDays hol pD f.date
    let fv : ℝ := match f.ftype with
      | FType.J => truncateR (vna * SEMI_ANNUAL_COUPON_RATE) 2
      | FType.P => truncateR vna 2
    let discountDivisor : ℝ := (1 + rateDecimal) ^ ((du : ℝ) / 252)
    let pv := fv / discountDivisor
    let cum2 := cum + pv
    { date := f.date, ftype := f.ftype, businessDays := du,
      rate := (match f.ftype with | FType.J => SEMI_ANNUAL_COUPON_RATE * 100 | FType.P => 0),
      futureValue := fv * qty, presentValue := pv * qty,
      cumulativePresentValue := cum2 * qty } :: buildFlows hol pD vna rateDecimal qty rest cum2

/-- The body of `calculateNTNB` after its input validation (Steps 1–6 and the
derived totals). -/
noncomputable def calcCore (hol : ℤ → Bool) (p mdt : JDate) (fd : FormData) : CalculationResult :=
  let vna := vnaOf fd p
  let flows := sortedFlows hol p mdt
  let rateDecimal := fd.purchaseRate / 100
  let quotationPct := truncateR (quotationSumOf hol p mdt rateDecimal * 100) 4
  let unitPrice := truncateR (vna * (quotationPct / 100)) 2
  let cashFlows := buildFlows hol p.days vna rateDecimal fd.quantity flows 0
  let totalInvestment := unitPrice * fd.quantity
  let grossAmountReturned := cashFlows.foldl (fun s f => s + f.futureValue) 0
  let grossProfit := grossAmountReturned - totalInvestment
  let weightedDurationSum :=
    cashFlows.foldl (fun s f => s + ((f.businessDays : ℝ) / 252) * f.presentValue) 0
  let priceForDuration := cashFlows.foldl (fun s f => s + f.presentValue) 0
  let duration := if 0 < priceForDuration then weightedDurationSum / priceForDuration else 0
  { totalInvestment := totalInvestment, unitPrice := unitPrice, quotation := quotationPct,
    grossAmountReturned := grossAmountReturned, grossProfit := grossProfit,
    duration := duration, cashFlows := cashFlows, formData := fd, calculatedVna := vna }

/-- `calculateNTNB` (second revision): missing dates throw "Invalid dates";
a purchase date on or after maturity throws; nothing else is validated. -/
noncomputable def calculateNTNB (hol : ℤ → Bool) (fd : FormData) :
    Except String CalculationResult :=
  match fd.purchaseDate, fd.maturityDate with
  | some p, some mdt =>
      if mdt.days ≤ p.days then
        Except.error "Data de compra deve ser anterior ao vencimento."
      else Except.ok (calcCore hol p mdt fd)
  | _, _ => Except.error "Invalid dates"

/-- `BondItem` of `src/types.ts`. -/
structure BondItem extends FormData where
  id : String
  name : Option String

/-- One row of the consolidated per-year table (`ConsolidatedYearlyFlow`). -/
structure YEntry where
  year : ℤ
  totalValue : ℝ
  couponValue : ℝ
  principalValue : ℝ
  flowCount : ℕ

/-- `PortfolioResult` of `src/types.ts` (the per-bond id/name tagging of
`individualResults` is presentational and not modelled). -/
structure PortfolioResult where
  individualResults : List CalculationResult
  consolidatedFlows : List YEntry
  totalInvested : ℝ
  totalReturned : ℝ
  totalProfit : ℝ

/-- JavaScript `Map.get` on the year-keyed association list. -/
def msGet (m : List YEntry) (y : ℤ) : Option YEntry := m.find? (fun x => decide (x.year = y))

/-- JavaScript `Map.set` on the year-keyed association list: replace in place
when the key exists, else append (insertion order). -/
def msSet (m : List YEntry) (e : YEntry) : List YEntry :=
  if m.any (fun x => decide (x.year = e.year)) then
    m.map (fun x => if x.year = e.year then e else x)
  else m ++ [e]

/-- One flow folded into the consolidated map: fetch the year's entry (or a
zero entry), add the nominal value to the total and to the coupon or
principal bucket by kind, bump the count. -/
noncomputable def stepFlow (m : List YEntry) (f : CashFlow) : List YEntry :=
  let y := yearOfDays f.date
  let ex := (msGet m y).getD
    { year := y, totalValue := 0, couponValue := 0, principalValue := 0, flowCount := 0 }
  let upd : YEntry := match f.ftype with
    | FType.J =>
      { year := y, totalValue := ex.totalValue + f.futureValue,
        couponValue := ex.couponValue + f.futureValue,
        principalValue := ex.principalValue, flowCount := ex.flowCount + 1 }
    | FType.P =>
      { year := y, totalValue := ex.totalValue + f.futureValue,
        couponValue := ex.couponValue,
        principalValue := ex.principalValue + f.futureValue, flowCount := ex.flowCount + 1 }
  msSet m upd

/-- `bonds.map(bond => calculateNTNB(bond))`: the first thrown error
propagates, otherwise the list of results in order. -/
noncomputable def mapResults (hol : ℤ → Bool) : List BondItem →
    Except String (List CalculationResult)
  | [] => Except.ok []
  | b :: rest =>
    match calculateNTNB hol b.toFormData with
    | Except.error e => Except.error e
    | Except.ok r =>
      match mapResults hol rest with
      | Except.error e => Except.error e
      | Except.ok rs => Except.ok (r :: rs)

/-- `calculatePortfolio`: price every bond, fold all flows into the year map
in order, sort the map's values by year, total the investments and returns. -/
noncomputable def calculatePortfolio (hol : ℤ → Bool) (bonds : List BondItem) :
    Except String PortfolioResult :=
  match mapResults hol bonds with
  | Except.error e => Except.error e
  | Except.ok results =>
    let totalInvested := results.foldl (fun s r => s + r.totalInvestment) 0
    let totalReturned := results.foldl (fun s r => s + r.grossAmountReturned) 0
    let yearMap := results.foldl (fun m r => r.cashFlows.foldl stepFlow m) []
    let consolidated := yearMap.mergeSort (fun a b => decide (a.year ≤ b.year))
    Except.ok
      { individualResults := results, consolidatedFlows := consolidated,
        totalInvested := totalInvested, totalReturned := totalReturned,
        totalProfit := totalReturned - totalInvested }

/-! ## Plumbing lemmas -/

/-- Division facts packaged for `omega` (all divisors used are positive, so
Euclidean division is floor division). -/
lemma ediv_spec (a d : ℤ) (hd : 0 < d) :
    a = d * Int.ediv a d + Int.emod a d ∧ 0 ≤ Int.emod a d ∧ Int.emod a d < d :=
  ⟨(Int.ediv_add_emod a d).symm, Int.emod_nonneg a (by omega), Int.emod_lt_of_pos a hd⟩

/-- The empty holiday table, used to instantiate witnesses (the real table is
not among the given sources; every theorem holds for all tables). -/
def holEmpty : ℤ → Bool := fun _ => false

/-- Success of `calculateNTNB` characterised: both dates present and purchase
strictly before maturity; the result is then `calcCore`. -/
lemma calculateNTNB_ok_iff (hol : ℤ → Bool) (fd : FormData) (r : CalculationResult) :
    calculateNTNB hol fd = Except.ok r ↔
      ∃ p mdt, fd.purchaseDate = some p ∧ fd.maturityDate = some mdt ∧
        p.days < mdt.days ∧ r = calcCore hol p mdt fd := by
  constructor
  · intro h
    cases hp : fd.purchaseDate with
    | none => simp [calculateNTNB, hp] at h
    | some p =>
      cases hm : fd.maturityDate with
      | none => simp [calculateNTNB, hp, hm] at h
      | some mdt =>
        simp only [calculateNTNB, hp, hm] at h
        by_cases hle : mdt.days ≤ p.days
        · rw [if_pos hle] at h; simp at h
        · rw [if_neg hle] at h
          exact ⟨p, mdt, rfl, rfl, by omega, (Except.ok.inj h).symm⟩
  · rintro ⟨p, mdt, hp, hm, hlt, hr⟩
    simp only [calculateNTNB, hp, hm]
    rw [if_neg (by omega), hr]

lemma calcCore_cashFlows (hol : ℤ → Bool) (p mdt : JDate) (fd : FormData) :
    (calcCore hol p mdt fd).cashFlows =
      buildFlows hol p.days (vnaOf fd p) (fd.purchaseRate / 100) fd.quantity
        (sortedFlows hol p mdt) 0 := rfl

lemma calcCore_calculatedVna (hol : ℤ → Bool) (p mdt : JDate) (fd : FormData) :
    (calcCore hol p mdt fd).calculatedVna = vnaOf fd p := rfl

lemma calcCore_quotation (hol : ℤ → Bool) (p mdt : JDate) (fd : FormData) :
    (calcCore hol p mdt fd).quotation =
      truncateR (quotationSumOf hol p mdt (fd.purchaseRate / 100) * 100) 4 := rfl

lemma calcCore_unitPrice (hol : ℤ → Bool) (p mdt : JDate) (fd : FormData) :
    (calcCore hol p mdt fd).unitPrice =
      truncateR (vnaOf fd p * ((calcCore hol p mdt fd).quotation / 100)) 2 := rfl

lemma calcCore_totalInvestment (hol : ℤ → Bool) (p mdt : JDate) (fd : FormData) :
    (calcCore hol p mdt fd).totalInvestment =
      (calcCore hol p mdt fd).unitPrice * fd.quantity := rfl

/-- The nominal value a flow of the given kind receives in Step 6. -/
noncomputable def fvOf (vna : ℝ) : FType → ℝ
  | FType.J => truncateR (vna * SEMI_ANNUAL_COUPON_RATE) 2
  | FType.P => truncateR vna 2

/-- Every produced cash flow comes from a skeleton flow, with its fields
given by the Step 6 formulas. -/
lemma buildFlows_mem (hol : ℤ → Bool) (pD : ℤ) (vna rd qty : ℝ) :
    ∀ (l : List FlowEv) (cum : ℝ) (cf : CashFlow),
      cf ∈ buildFlows hol pD vna rd qty l cum →
      ∃ f ∈ l, cf.date = f.date ∧ cf.ftype = f.ftype ∧
        cf.businessDays = countBusinessDays hol pD f.date ∧
        cf.futureValue = fvOf vna f.ftype * qty ∧
        cf.presentValue =
          fvOf vna f.ftype /
            (1 + rd) ^ ((countBusinessDays hol pD f.date : ℝ) / 252) * qty := by
  intro l
  induction l with
  | nil => intro cum cf h; simp [buildFlows] at h
  | cons f rest ih =>
    intro cum cf h
    rw [buildFlows] at h
    rcases List.mem_cons.mp h with h1 | h2
    · refine ⟨f, List.mem_cons_self f rest, ?_⟩
      subst h1
      refine ⟨rfl, rfl, rfl, ?_, ?_⟩ <;> cases f with
      | mk d t => cases t <;> simp [fvOf]
    · obtain ⟨g, hg, hprops⟩ := ih _ cf h2
      exact ⟨g, List.mem_cons_of_mem f hg, hprops⟩

/-! ## Concrete instances used by witnesses and counterexamples -/

/-- Date 2025-01-02, a Thursday. -/
def pThu : JDate := ⟨2025, 0, 2⟩

/-- Date 2025-01-04, a Saturday (not a business day under any holiday table). -/
def pSat : JDate := ⟨2025, 0, 4⟩

/-- Date 2025-05-15, a Thursday (a coupon anchor and the maturity used below). -/
def mMay : JDate := ⟨2025, 4, 15⟩

/-- A concrete valid bond input settling on a Thursday. -/
noncomputable def fdA : FormData :=
  { quantity := 1, purchaseDate := some pThu, maturityDate := some mMay,
    purchaseRate := 6, vnaPrevious := 4000, projectedIpca := 1 / 2 }

/-- The same bond, but settling on a Saturday. -/
noncomputable def fdSat : FormData :=
  { quantity := 1, purchaseDate := some pSat, maturityDate := some mMay,
    purchaseRate := 6, vnaPrevious := 4000, projectedIpca := 1 / 2 }

/-! ## C2 — settlement business-day validation -/

/-- C2, corrected: `calculateNTNB` accepts every input whose two dates are
present with purchase strictly before maturity — there is no settlement
business-day validation at all, so a non-business-day settlement is priced
normally rather than raising `SettlementNotBusinessDay`. -/
theorem c2_no_settlement_business_day_check (hol : ℤ → Bool) (fd : FormData)
    (p mdt : JDate) (hp : fd.purchaseDate = some p) (hm : fd.maturityDate = some mdt)
    (hlt : p.days < mdt.days) :
    calculateNTNB hol fd = Except.ok (calcCore hol p mdt fd) :=
  (calculateNTNB_ok_iff hol fd (calcCore hol p mdt fd)).mpr ⟨p, mdt, hp, hm, hlt, rfl⟩

/-- C2, witness: the Saturday-settlement bond goes through the amended
theorem (its hypotheses hold for it) and is priced. -/
theorem c2_witness :
    fdSat.purchaseDate = some pSat ∧ pSat.days < mMay.days ∧
      calculateNTNB holEmpty fdSat = Except.ok (calcCore holEmpty pSat mMay fdSat) :=
  ⟨rfl, by decide,
    c2_no_settlement_business_day_check holEmpty fdSat pSat mMay rfl rfl (by decide)⟩

/-- C2, counterexample: a Saturday settlement is not a business day, yet
`calculateNTNB` succeeds instead of raising a validation error. -/
theorem c2_counterexample :
    isWeekend pSat.days = true ∧ (calculateNTNB holEmpty fdSat).isOk = true := by
  constructor
  · decide
  · show (calculateNTNB holEmpty fdSat).isOk = true
    simp only [calculateNTNB, fdSat]
    rw [if_neg (by decide)]
    rfl

/-! ## C7 — non-finite propagation -/

/-- C7, corrected: `truncate` clamps every non-finite input to 0, so a
non-finite intermediate value (for instance a pathological projected VNA) is
silently replaced by the finite figure 0 at each truncation point instead of
surfacing as a non-finite figure. -/
theorem c7_truncate_clamps_nonfinite (v : JsNum) (dec : ℕ) (h : v.isFinite = false) :
    truncateF v dec = JsNum.fin 0 := by
  cases v with
  | fin x => simp [JsNum.isFinite] at h
  | posInf => rfl
  | negInf => rfl
  | nan => rfl

/-- C7, witness: NaN is non-finite and is clamped to 0 by `truncate`. -/
theorem c7_witness : JsNum.nan.isFinite = false ∧ truncateF JsNum.nan 6 = JsNum.fin 0 :=
  ⟨rfl, c7_truncate_clamps_nonfinite JsNum.nan 6 rfl⟩

/-- C7, counterexample: truncating the non-finite NaN yields the finite value
0 — the non-finite value does not surface, contradicting the claim. -/
theorem c7_counterexample :
    truncateF JsNum.nan 6 = JsNum.fin 0 ∧ (truncateF JsNum.nan 6).isFinite = true :=
  ⟨rfl, rfl⟩

/-! ## C5 — business-day field of each flow -/

/-- C5, corrected: the `businessDays` field of every cash flow is exactly the
half-open count `countBusinessDays(settlement, eventDate)` — start inclusive,
end exclusive — with no `+ 1` added. -/
theorem c5_businessDays_half_open (hol : ℤ → Bool) (fd : FormData) (p : JDate)
    (r : CalculationResult) (hp : fd.purchaseDate = some p)
    (h : calculateNTNB hol fd = Except.ok r) :
    ∀ cf ∈ r.cashFlows, cf.businessDays = countBusinessDays hol p.days cf.date := by
  obtain ⟨p2, mdt, hp2, hm, hlt, hr⟩ := (calculateNTNB_ok_iff hol fd r).mp h
  rw [hp] at hp2
  cases Option.some.inj hp2
  intro cf hcf
  rw [hr, calcCore_cashFlows] at hcf
  obtain ⟨f, hf, hdate, _, hbd, _, _⟩ :=
    buildFlows_mem hol p.days (vnaOf fd p) (fd.purchaseRate / 100) fd.quantity _ _ cf hcf
  rw [hbd, hdate]

/-- The concrete Thursday bond prices successfully (shared by witnesses). -/
lemma fdA_ok : calculateNTNB holEmpty fdA = Except.ok (calcCore holEmpty pThu mMay fdA) :=
  (calculateNTNB_ok_iff holEmpty fdA _).mpr ⟨pThu, mMay, rfl, rfl, by decide, rfl⟩

/-- C5, witness: the amended theorem applied to the concrete Thursday bond. -/
theorem c5_witness :
    fdA.purchaseDate = some pThu ∧
      calculateNTNB holEmpty fdA = Except.ok (calcCore holEmpty pThu mMay fdA) ∧
      ∀ cf ∈ (calcCore holEmpty pThu mMay fdA).cashFlows,
        cf.businessDays = countBusinessDays holEmpty pThu.days cf.date :=
  ⟨rfl, fdA_ok, c5_businessDays_half_open holEmpty fdA pThu _ rfl fdA_ok⟩

set_option maxRecDepth 8000 in
/-- C5, counterexample: for the concrete bond both events carry the half-open
count 95, while the claim's `half-open + 1` would be 96. -/
theorem c5_counterexample :
    ((calcCore holEmpty pThu mMay fdA).cashFlows.map
        (fun cf => (cf.businessDays, countBusinessDays holEmpty pThu.days cf.date + 1))) =
      [(95, 96), (95, 96)] := by
  rw [calcCore_cashFlows]
  have hs : sortedFlows holEmpty pThu mMay = [⟨20223, FType.J⟩, ⟨20223, FType.P⟩] := by
    unfold sortedFlows
    rw [List.mergeSort_of_sorted (by decide)]
    decide
  rw [hs]
  simp only [buildFlows, List.map]
  decide

/-! ## C1 — coupon nominal value and the semiannual rate -/

/-- C1, corrected: every Interest flow's nominal value is
`truncate(VNA * SEMI_ANNUAL_COUPON_RATE, 2)` scaled by quantity, where the
rate is the compounded `(1.06)^0.5 - 1 ≈ 2.9563%`, not the flat 3%. -/
theorem c1_interest_nominal_value (hol : ℤ → Bool) (fd : FormData) (p : JDate)
    (r : CalculationResult) (hp : fd.purchaseDate = some p)
    (h : calculateNTNB hol fd = Except.ok r) :
    ∀ cf ∈ r.cashFlows, cf.ftype = FType.J →
      cf.futureValue = truncateR (r.calculatedVna * SEMI_ANNUAL_COUPON_RATE) 2 * fd.quantity := by
  obtain ⟨p2, mdt, hp2, hm, hlt, hr⟩ := (calculateNTNB_ok_iff hol fd r).mp h
  rw [hp] at hp2
  cases Option.some.inj hp2
  intro cf hcf hJ
  rw [hr, calcCore_cashFlows] at hcf
  obtain ⟨f, hf, _, hty, _, hfv, _⟩ :=
    buildFlows_mem hol p.days (vnaOf fd p) (fd.purchaseRate / 100) fd.quantity _ _ cf hcf
  have ht : f.ftype = FType.J := by rw [← hty, hJ]
  rw [hr, calcCore_calculatedVna, hfv, ht]
  rfl

/-- C1, witness: the amended theorem applied to the concrete Thursday bond. -/
theorem c1_witness :
    fdA.purchaseDate = some pThu ∧
      calculateNTNB holEmpty fdA = Except.ok (calcCore holEmpty pThu mMay fdA) ∧
      ∀ cf ∈ (calcCore holEmpty pThu mMay fdA).cashFlows, cf.ftype = FType.J →
        cf.futureValue =
          truncateR ((calcCore holEmpty pThu mMay fdA).calculatedVna * SEMI_ANNUAL_COUPON_RATE) 2
            * fdA.quantity :=
  ⟨rfl, fdA_ok, c1_interest_nominal_value holEmpty fdA pThu _ rfl fdA_ok⟩

/-- C1, counterexample: the engine's semiannual coupon rate is the compounded
value, which differs from the flat 3% asserted by the claim. -/
theorem c1_counterexample : SEMI_ANNUAL_COUPON_RATE ≠ 3 / 100 := by
  unfold SEMI_ANNUAL_COUPON_RATE
  intro h
  have h2 : (1.06 : ℝ) ^ (0.5 : ℝ) = 1.03 := by linarith
  have h3 : ((1.06 : ℝ) ^ (0.5 : ℝ)) ^ (2 : ℝ) = (1.06 : ℝ) := by
    rw [← Real.rpow_mul (by norm_num : (0 : ℝ) ≤ 1.06)]
    norm_num
  rw [h2] at h3
  have h4 : (1.03 : ℝ) ^ (2 : ℝ) = (1.03 : ℝ) ^ (2 : ℕ) := by
    rw [← Real.rpow_natCast (1.03 : ℝ) 2]
    norm_num
  rw [h4] at h3
  norm_num at h3

/-! ## C4 — quotation, unit price, total investment -/

/-- The accumulated quotation equals the sum over all flows of the per-flow
discounted share. -/
lemma quotationSumOf_eq_sum (hol : ℤ → Bool) (p mdt : JDate) (rd : ℝ) :
    quotationSumOf hol p mdt rd =
      ((sortedFlows hol p mdt).map (fun f =>
        (match f.ftype with | FType.J => SEMI_ANNUAL_COUPON_RATE | FType.P => (1 : ℝ)) /
          (1 + rd) ^ ((countBusinessDays hol p.days f.date : ℝ) / 252))).sum := by
  unfold quotationSumOf
  have key : ∀ (l : List FlowEv) (a : ℝ),
      l.foldl (fun q f =>
        q + (match f.ftype with | FType.J => SEMI_ANNUAL_COUPON_RATE | FType.P => (1 : ℝ)) /
          (1 + rd) ^ ((countBusinessDays hol p.days f.date : ℝ) / 252)) a =
      a + (l.map (fun f =>
        (match f.ftype with | FType.J => SEMI_ANNUAL_COUPON_RATE | FType.P => (1 : ℝ)) /
          (1 + rd) ^ ((countBusinessDays hol p.days f.date : ℝ) / 252))).sum := by
    intro l
    induction l with
    | nil => intro a; simp
    | cons x rest ih =>
      intro a
      rw [List.foldl_cons, ih, List.map_cons, List.sum_cons]
      ring
  rw [key, zero_add]

/-- C4, confirmed: the quotation is the sum over all cash-flow events of
`flowFactor / (1 + yield)^(businessDays/252)` (coupon rate for Interest, 1.0
for Principal), times 100 and floor-truncated to 4 decimals; the unit price
is `VNA * quotation/100` floor-truncated to 2 decimals; total investment is
unit price times quantity. -/
theorem c4_pricing (hol : ℤ → Bool) (fd : FormData) (p mdt : JDate) (r : CalculationResult)
    (hp : fd.purchaseDate = some p) (hm : fd.maturityDate = some mdt)
    (h : calculateNTNB hol fd = Except.ok r) :
    r.quotation =
      truncateR
        (((sortedFlows hol p mdt).map (fun f =>
          (match f.ftype with | FType.J => SEMI_ANNUAL_COUPON_RATE | FType.P => (1 : ℝ)) /
            (1 + fd.purchaseRate / 100) ^ ((countBusinessDays hol p.days f.date : ℝ) / 252))).sum
          * 100) 4 ∧
    r.unitPrice = truncateR (r.calculatedVna * (r.quotation / 100)) 2 ∧
    r.totalInvestment = r.unitPrice * fd.quantity := by
  obtain ⟨p2, mdt2, hp2, hm2, hlt, hr⟩ := (calculateNTNB_ok_iff hol fd r).mp h
  rw [hp] at hp2
  rw [hm] at hm2
  cases Option.some.inj hp2
  cases Option.some.inj hm2
  subst hr
  refine ⟨?_, rfl, rfl⟩
  rw [calcCore_quotation, quotationSumOf_eq_sum]

/-- C4, witness: the theorem applied to the concrete Thursday bond. -/
theorem c4_witness :
    fdA.purchaseDate = some pThu ∧ fdA.maturityDate = some mMay ∧
      calculateNTNB holEmpty fdA = Except.ok (calcCore holEmpty pThu mMay fdA) ∧
      ((calcCore holEmpty pThu mMay fdA).quotation =
        truncateR
          (((sortedFlows holEmpty pThu mMay).map (fun f =>
            (match f.ftype with | FType.J => SEMI_ANNUAL_COUPON_RATE | FType.P => (1 : ℝ)) /
              (1 + fdA.purchaseRate / 100) ^
                ((countBusinessDays holEmpty pThu.days f.date : ℝ) / 252))).sum * 100) 4 ∧
      (calcCore holEmpty pThu mMay fdA).unitPrice =
        truncateR ((calcCore holEmpty pThu mMay fdA).calculatedVna *
          ((calcCore holEmpty pThu mMay fdA).quotation / 100)) 2 ∧
      (calcCore holEmpty pThu mMay fdA).totalInvestment =
        (calcCore holEmpty pThu mMay fdA).unitPrice * fdA.quantity) :=
  ⟨rfl, rfl, fdA_ok, c4_pricing holEmpty fdA pThu mMay _ rfl rfl fdA_ok⟩

/-! ## C3 — VNA projection anchors and formula -/

lemma mkUTC_id (y m d : ℤ) (h0 : 0 ≤ m) (h1 : m ≤ 11) : mkUTC y m d = ⟨y, m, d⟩ := by
  have e := ediv_spec m 12 (by norm_num)
  unfold mkUTC
  congr 1 <;> omega

lemma daysFromCivil_day_diff (y m d1 d2 : ℤ) :
    daysFromCivil y m d2 - daysFromCivil y m d1 = d2 - d1 := by
  unfold daysFromCivil
  split_ifs <;> ring

lemma days_next_month (y m : ℤ) (h0 : 0 ≤ m) (h1 : m ≤ 10) :
    daysFromCivil y m 15 + 14 ≤ daysFromCivil y (m + 1) 1 := by
  have e1 := ediv_spec y 400 (by norm_num)
  have e2 := ediv_spec (y - 1) 400 (by norm_num)
  have e3 := ediv_spec (Int.emod y 400) 4 (by norm_num)
  have e4 := ediv_spec (Int.emod y 400) 100 (by norm_num)
  have e5 := ediv_spec (Int.emod (y - 1) 400) 4 (by norm_num)
  have e6 := ediv_spec (Int.emod (y - 1) 400) 100 (by norm_num)
  interval_cases m <;> simp only [daysFromCivil] <;> norm_num <;> omega

lemma days_year_wrap (y : ℤ) :
    daysFromCivil y 11 15 + 14 ≤ daysFromCivil (y + 1) 0 1 := by
  have e1 := ediv_spec (Int.emod y 400) 4 (by norm_num)
  have e2 := ediv_spec (Int.emod y 400) 100 (by norm_num)
  simp only [daysFromCivil]
  norm_num
  omega

/-- Anchor selection as worded by the spec: if the settlement day-of-month is
≥ 15, anchor_start is the 15th of the settlement month; otherwise the 15th of
the previous month (wrapping the year in January). -/
def specAnchorStart (p : JDate) : JDate :=
  if 15 ≤ p.day then ⟨p.year, p.month, 15⟩
  else if p.month = 0 then ⟨p.year - 1, 11, 15⟩ else ⟨p.year, p.month - 1, 15⟩

/-- Anchor selection as worded by the spec: if the settlement day-of-month is
≥ 15, anchor_end is the 15th of the next month (wrapping the year in
December); otherwise the 15th of the settlement month. -/
def specAnchorEnd (p : JDate) : JDate :=
  if 15 ≤ p.day then (if p.month = 11 then ⟨p.year + 1, 0, 15⟩ else ⟨p.year, p.month + 1, 15⟩)
  else ⟨p.year, p.month, 15⟩

lemma startReference_eq_spec (p : JDate) (h0 : 0 ≤ p.month) (h1 : p.month ≤ 11) :
    startReferenceDate p = specAnchorStart p := by
  unfold startReferenceDate specAnchorStart
  by_cases hd : 15 ≤ p.day
  · rw [if_pos hd, if_pos hd, mkUTC_id _ _ _ h0 h1]
  · rw [if_neg hd, if_neg hd]
    simp only [setUTCMonth, mkUTC]
    have e := ediv_spec (p.month - 1) 12 (by norm_num)
    have e2 := ediv_spec (Int.emod (p.month - 1) 12) 12 (by norm_num)
    by_cases hm : p.month = 0
    · rw [if_pos hm]
      congr 1 <;> omega
    · rw [if_neg hm]
      congr 1 <;> omega

lemma endReference_eq_spec (p : JDate) (h0 : 0 ≤ p.month) (h1 : p.month ≤ 11) :
    endReferenceDate p = specAnchorEnd p := by
  unfold endReferenceDate specAnchorEnd
  by_cases hd : 15 ≤ p.day
  · rw [if_pos hd, if_pos hd]
    simp only [mkUTC]
    have e := ediv_spec (p.month + 1) 12 (by norm_num)
    by_cases hm : p.month = 11
    · rw [if_pos hm]
      congr 1 <;> omega
    · rw [if_neg hm]
      congr 1 <;> omega
  · rw [if_neg hd, if_neg hd, mkUTC_id _ _ _ h0 h1]

lemma specAnchorStart_le_p (p : JDate) (h0 : 0 ≤ p.month) (h1 : p.month ≤ 11)
    (hd1 : 1 ≤ p.day) : (specAnchorStart p).days ≤ p.days := by
  by_cases hd : 15 ≤ p.day
  · have ha : specAnchorStart p = ⟨p.year, p.month, 15⟩ := by
      unfold specAnchorStart
      rw [if_pos hd]
    rw [ha]
    show daysFromCivil p.year p.month 15 ≤ daysFromCivil p.year p.month p.day
    have hdd := daysFromCivil_day_diff p.year p.month 15 p.day
    omega
  · by_cases hm : p.month = 0
    · have ha : specAnchorStart p = ⟨p.year - 1, 11, 15⟩ := by
        unfold specAnchorStart
        rw [if_neg hd, if_pos hm]
      rw [ha]
      show daysFromCivil (p.year - 1) 11 15 ≤ daysFromCivil p.year p.month p.day
      rw [hm]
      have hw := days_year_wrap (p.year - 1)
      have hy : p.year - 1 + 1 = p.year := by omega
      rw [hy] at hw
      have hdd := daysFromCivil_day_diff p.year 0 1 p.day
      omega
    · have ha : specAnchorStart p = ⟨p.year, p.month - 1, 15⟩ := by
        unfold specAnchorStart
        rw [if_neg hd, if_neg hm]
      rw [ha]
      show daysFromCivil p.year (p.month - 1) 15 ≤ daysFromCivil p.year p.month p.day
      have hnm := days_next_month p.year (p.month - 1) (by omega) (by omega)
      have hx : p.month - 1 + 1 = p.month := by omega
      rw [hx] at hnm
      have hdd := daysFromCivil_day_diff p.year p.month 1 p.day
      omega

lemma specAnchorStart_le_end (p : JDate) (h0 : 0 ≤ p.month) (h1 : p.month ≤ 11) :
    (specAnchorStart p).days ≤ (specAnchorEnd p).days := by
  by_cases hd : 15 ≤ p.day
  · by_cases hm : p.month = 11
    · have ha : specAnchorStart p = ⟨p.year, p.month, 15⟩ := by
        unfold specAnchorStart
        rw [if_pos hd]
      have hb : specAnchorEnd p = ⟨p.year + 1, 0, 15⟩ := by
        unfold specAnchorEnd
        rw [if_pos hd, if_pos hm]
      rw [ha, hb]
      show daysFromCivil p.year p.month 15 ≤ daysFromCivil (p.year + 1) 0 15
      rw [hm]
      have hw := days_year_wrap p.year
      have hdd := daysFromCivil_day_diff (p.year + 1) 0 1 15
      omega
    · have ha : specAnchorStart p = ⟨p.year, p.month, 15⟩ := by
        unfold specAnchorStart
        rw [if_pos hd]
      have hb : specAnchorEnd p = ⟨p.year, p.month + 1, 15⟩ := by
        unfold specAnchorEnd
        rw [if_pos hd, if_neg hm]
      rw [ha, hb]
      show daysFromCivil p.year p.month 15 ≤ daysFromCivil p.year (p.month + 1) 15
      have hnm := days_next_month p.year p.month h0 (by omega)
      have hdd := daysFromCivil_day_diff p.year (p.month + 1) 1 15
      omega
  · by_cases hm : p.month = 0
    · have ha : specAnchorStart p = ⟨p.year - 1, 11, 15⟩ := by
        unfold specAnchorStart
        rw [if_neg hd, if_pos hm]
      have hb : specAnchorEnd p = ⟨p.year, p.month, 15⟩ := by
        unfold specAnchorEnd
        rw [if_neg hd]
      rw [ha, hb]
      show daysFromCivil (p.year - 1) 11 15 ≤ daysFromCivil p.year p.month 15
      rw [hm]
      have hw := days_year_wrap (p.year - 1)
      have hy : p.year - 1 + 1 = p.year := by omega
      rw [hy] at hw
      have hdd := daysFromCivil_day_diff p.year 0 1 15
      omega
    · have ha : specAnchorStart p = ⟨p.year, p.month - 1, 15⟩ := by
        unfold specAnchorStart
        rw [if_neg hd, if_neg hm]
      have hb : specAnchorEnd p = ⟨p.year, p.month, 15⟩ := by
        unfold specAnchorEnd
        rw [if_neg hd]
      rw [ha, hb]
      show daysFromCivil p.year (p.month - 1) 15 ≤ daysFromCivil p.year p.month 15
      have hnm := days_next_month p.year (p.month - 1) (by omega) (by omega)
      have hx : p.month - 1 + 1 = p.month := by omega
      rw [hx] at hnm
      have hdd := daysFromCivil_day_diff p.year p.month 1 15
      omega

lemma countCalendarDays_cast (a b : ℤ) (h : a ≤ b) :
    ((countCalendarDays a b : ℕ) : ℝ) = ((b - a : ℤ) : ℝ) := by
  have hz : ((countCalendarDays a b : ℕ) : ℤ) = b - a := by
    unfold countCalendarDays
    omega
  exact_mod_cast hz

/-- The projected VNA exactly as the spec words it:
`VNA_previous * (1 + monthlyInflationRate)^x` floor-truncated to 6 decimals,
with `x` the ratio of calendar days from anchor_start to settlement over
calendar days from anchor_start to anchor_end, anchors not business-day
adjusted. -/
noncomputable def specVna (fd : FormData) (p : JDate) : ℝ :=
  truncateR
    (fd.vnaPrevious * (1 + fd.projectedIpca / 100) ^
      (((p.days - (specAnchorStart p).days : ℤ) : ℝ) /
        (((specAnchorEnd p).days - (specAnchorStart p).days : ℤ) : ℝ))) 6

/-- C3, confirmed: for every priced bond with a well-formed settlement date,
the calculated VNA equals the spec formula `VNA_prev * (1 + rate)^x`
floor-truncated to 6 decimals, with the anchors and calendar-day ratio
exactly as the spec describes them, with no business-day adjustment. -/
theorem c3_vna_projection (hol : ℤ → Bool) (fd : FormData) (p : JDate) (r : CalculationResult)
    (hp : fd.purchaseDate = some p) (h : calculateNTNB hol fd = Except.ok r)
    (h0 : 0 ≤ p.month) (h1 : p.month ≤ 11) (hd1 : 1 ≤ p.day) :
    r.calculatedVna = specVna fd p := by
  obtain ⟨p2, mdt, hp2, hm, hlt, hr⟩ := (calculateNTNB_ok_iff hol fd r).mp h
  rw [hp] at hp2
  cases Option.some.inj hp2
  subst hr
  rw [calcCore_calculatedVna]
  simp only [vnaOf, specVna]
  rw [startReference_eq_spec p h0 h1, endReference_eq_spec p h0 h1,
    countCalendarDays_cast _ _ (specAnchorStart_le_p p h0 h1 hd1),
    countCalendarDays_cast _ _ (specAnchorStart_le_end p h0 h1)]

/-- C3, witness: the theorem applied to the concrete Thursday bond (whose
settlement day 2 takes the previous-month anchor branch, across a year
boundary: anchors 2024-12-15 and 2025-01-15). -/
theorem c3_witness :
    fdA.purchaseDate = some pThu ∧ (0 ≤ pThu.month ∧ pThu.month ≤ 11 ∧ 1 ≤ pThu.day) ∧
      calculateNTNB holEmpty fdA = Except.ok (calcCore holEmpty pThu mMay fdA) ∧
      (calcCore holEmpty pThu mMay fdA).calculatedVna = specVna fdA pThu :=
  ⟨rfl, by refine ⟨by decide, by decide, by decide⟩, fdA_ok,
    c3_vna_projection holEmpty fdA pThu _ rfl fdA_ok (by decide) (by decide) (by decide)⟩

/-! ## C10 — present value bounded by nominal value -/

lemma jsTruncZ_nonneg {x : ℝ} (h : 0 ≤ x) : 0 ≤ jsTruncZ x := by
  unfold jsTruncZ
  rw [if_pos h]
  exact Int.floor_nonneg.mpr h

lemma jsTruncZ_mono {a b : ℝ} (h : a ≤ b) : jsTruncZ a ≤ jsTruncZ b := by
  unfold jsTruncZ
  by_cases ha : 0 ≤ a
  · rw [if_pos ha, if_pos (le_trans ha h)]
    exact Int.floor_le_floor h
  · rw [if_neg ha]
    by_cases hb : 0 ≤ b
    · rw [if_pos hb]
      calc ⌈a⌉ ≤ 0 := Int.ceil_le.mpr (by simpa using le_of_not_le ha)
        _ ≤ ⌊b⌋ := Int.floor_nonneg.mpr hb
    · rw [if_neg hb]
      exact Int.ceil_le_ceil h

lemma truncateR_nonneg {v : ℝ} (dec : ℕ) (h : 0 ≤ v) : 0 ≤ truncateR v dec := by
  unfold truncateR
  apply div_nonneg _ (by positivity)
  exact_mod_cast jsTruncZ_nonneg (by positivity)

lemma truncateR_mono {a b : ℝ} (dec : ℕ) (h : a ≤ b) : truncateR a dec ≤ truncateR b dec := by
  unfold truncateR
  refine (div_le_div_iff_of_pos_right (by positivity)).mpr ?_
  exact_mod_cast jsTruncZ_mono (mul_le_mul_of_nonneg_right h (by positivity))

lemma rate_nonneg : 0 ≤ SEMI_ANNUAL_COUPON_RATE := by
  unfold SEMI_ANNUAL_COUPON_RATE
  have : (1 : ℝ) ≤ (1.06 : ℝ) ^ (0.5 : ℝ) := Real.one_le_rpow (by norm_num) (by norm_num)
  linarith

lemma vnaOf_nonneg (fd : FormData) (p : JDate) (hv : 0 ≤ fd.vnaPrevious)
    (hi : -100 ≤ fd.projectedIpca) : 0 ≤ vnaOf fd p := by
  unfold vnaOf
  apply truncateR_nonneg
  apply mul_nonneg hv
  apply Real.rpow_nonneg
  have : (0 : ℝ) ≤ 100 + fd.projectedIpca := by linarith
  have h100 : (0:ℝ) < 100 := by norm_num
  nlinarith [div_nonneg this (le_of_lt h100)]

lemma fvOf_nonneg {vna : ℝ} (h : 0 ≤ vna) (t : FType) : 0 ≤ fvOf vna t := by
  cases t with
  | J => exact truncateR_nonneg 2 (mul_nonneg h rate_nonneg)
  | P => exact truncateR_nonneg 2 h

/-- C10, confirmed: with a non-negative contracted yield (and a valid bond:
non-negative quantity and reference value, inflation not below -100%), every
cash-flow event has presentValue ≤ futureValue, because the business-day
count is non-negative so the discount divisor is at least 1. -/
theorem c10_pv_le_fv (hol : ℤ → Bool) (fd : FormData) (p : JDate) (r : CalculationResult)
    (hp : fd.purchaseDate = some p) (h : calculateNTNB hol fd = Except.ok r)
    (hq : 0 ≤ fd.quantity) (hy : 0 ≤ fd.purchaseRate)
    (hv : 0 ≤ fd.vnaPrevious) (hi : -100 ≤ fd.projectedIpca) :
    ∀ cf ∈ r.cashFlows, cf.presentValue ≤ cf.futureValue := by
  obtain ⟨p2, mdt, hp2, hm, hlt, hr⟩ := (calculateNTNB_ok_iff hol fd r).mp h
  rw [hp] at hp2
  cases Option.some.inj hp2
  intro cf hcf
  rw [hr, calcCore_cashFlows] at hcf
  obtain ⟨f, hf, _, _, _, hfv, hpv⟩ :=
    buildFlows_mem hol p.days (vnaOf fd p) (fd.purchaseRate / 100) fd.quantity _ _ cf hcf
  rw [hfv, hpv]
  apply mul_le_mul_of_nonneg_right _ hq
  have hvna : 0 ≤ vnaOf fd p := vnaOf_nonneg fd p hv hi
  have hfv0 : 0 ≤ fvOf (vnaOf fd p) f.ftype := fvOf_nonneg hvna f.ftype
  apply div_le_self hfv0
  apply Real.one_le_rpow
  · have : 0 ≤ fd.purchaseRate / 100 := by positivity
    linarith
  · positivity

/-- C10, witness: the theorem applied to the concrete Thursday bond. -/
theorem c10_witness :
    fdA.purchaseDate = some pThu ∧
      (0 ≤ fdA.quantity ∧ 0 ≤ fdA.purchaseRate ∧ 0 ≤ fdA.vnaPrevious ∧
        -100 ≤ fdA.projectedIpca) ∧
      calculateNTNB holEmpty fdA = Except.ok (calcCore holEmpty pThu mMay fdA) ∧
      ∀ cf ∈ (calcCore holEmpty pThu mMay fdA).cashFlows, cf.presentValue ≤ cf.futureValue :=
  ⟨rfl, ⟨by norm_num [fdA], by norm_num [fdA], by norm_num [fdA], by norm_num [fdA]⟩, fdA_ok,
    c10_pv_le_fv holEmpty fdA pThu _ rfl fdA_ok (by norm_num [fdA]) (by norm_num [fdA])
      (by norm_num [fdA]) (by norm_num [fdA])⟩

/-! ## C9 — monotonicity in the contracted yield -/

/-- The un-truncated quotation sum is antitone in the yield: each flow's
divisor grows with the yield while the flow factor is non-negative. -/
lemma quotationSumOf_anti (hol : ℤ → Bool) (p mdt : JDate) {y1 y2 : ℝ}
    (hy1 : 0 ≤ y1) (h12 : y1 ≤ y2) :
    quotationSumOf hol p mdt (y2 / 100) ≤ quotationSumOf hol p mdt (y1 / 100) := by
  rw [quotationSumOf_eq_sum, quotationSumOf_eq_sum]
  apply List.sum_le_sum
  intro f _
  have hfac :
      0 ≤ (match f.ftype with | FType.J => SEMI_ANNUAL_COUPON_RATE | FType.P => (1 : ℝ)) := by
    cases f.ftype with
    | J => exact rate_nonneg
    | P => norm_num
  have hb1 : (0 : ℝ) < 1 + y1 / 100 := by
    have h0 : (0 : ℝ) ≤ y1 / 100 := by positivity
    linarith
  have hble : (1 : ℝ) + y1 / 100 ≤ 1 + y2 / 100 := by linarith
  have hexp : (0 : ℝ) ≤ (countBusinessDays hol p.days f.date : ℝ) / 252 := by positivity
  have hd1 := Real.rpow_pos_of_pos hb1 ((countBusinessDays hol p.days f.date : ℝ) / 252)
  have hdle := Real.rpow_le_rpow (le_of_lt hb1) hble hexp
  exact div_le_div_of_nonneg_left hfac hd1 hdle

/-- C9, confirmed (reading "monotonically decreasing" as non-increasing,
which is all that survives the 4-decimal truncation): raising the contracted
yield, all else fixed, never increases the quotation or the unit price. -/
theorem c9_price_antitone_in_yield (hol : ℤ → Bool) (fd : FormData) (p mdt : JDate)
    (r1 r2 : CalculationResult) (y1 y2 : ℝ)
    (h1 : calculateNTNB hol { fd with purchaseRate := y1 } = Except.ok r1)
    (h2 : calculateNTNB hol { fd with purchaseRate := y2 } = Except.ok r2)
    (hp : fd.purchaseDate = some p) (hm : fd.maturityDate = some mdt)
    (hy1 : 0 ≤ y1) (h12 : y1 ≤ y2)
    (hv : 0 ≤ fd.vnaPrevious) (hi : -100 ≤ fd.projectedIpca) :
    r2.quotation ≤ r1.quotation ∧ r2.unitPrice ≤ r1.unitPrice := by
  obtain ⟨pa, ma, hpa, hma, _, hr1⟩ :=
    (calculateNTNB_ok_iff hol { fd with purchaseRate := y1 } r1).mp h1
  obtain ⟨pb, mb, hpb, hmb, _, hr2⟩ :=
    (calculateNTNB_ok_iff hol { fd with purchaseRate := y2 } r2).mp h2
  have hpa2 : fd.purchaseDate = some pa := hpa
  have hma2 : fd.maturityDate = some ma := hma
  have hpb2 : fd.purchaseDate = some pb := hpb
  have hmb2 : fd.maturityDate = some mb := hmb
  rw [hp] at hpa2 hpb2
  rw [hm] at hma2 hmb2
  cases Option.some.inj hpa2
  cases Option.some.inj hma2
  cases Option.some.inj hpb2
  cases Option.some.inj hmb2
  subst hr1
  subst hr2
  have hquot : (calcCore hol p mdt { fd with purchaseRate := y2 }).quotation ≤
      (calcCore hol p mdt { fd with purchaseRate := y1 }).quotation := by
    rw [calcCore_quotation, calcCore_quotation]
    apply truncateR_mono
    apply mul_le_mul_of_nonneg_right _ (by norm_num)
    exact quotationSumOf_anti hol p mdt hy1 h12
  refine ⟨hquot, ?_⟩
  rw [calcCore_unitPrice, calcCore_unitPrice]
  apply truncateR_mono
  have hvna : 0 ≤ vnaOf { fd with purchaseRate := y1 } p :=
    vnaOf_nonneg _ p hv hi
  have hveq : vnaOf { fd with purchaseRate := y2 } p = vnaOf { fd with purchaseRate := y1 } p := rfl
  rw [hveq]
  apply mul_le_mul_of_nonneg_left _ hvna
  linarith

/-- The concrete bond at yield 5 prices successfully. -/
lemma fdA5_ok : calculateNTNB holEmpty { fdA with purchaseRate := 5 } =
    Except.ok (calcCore holEmpty pThu mMay { fdA with purchaseRate := 5 }) :=
  (calculateNTNB_ok_iff holEmpty _ _).mpr ⟨pThu, mMay, rfl, rfl, by decide, rfl⟩

/-- The concrete bond at yield 6 prices successfully. -/
lemma fdA6_ok : calculateNTNB holEmpty { fdA with purchaseRate := 6 } =
    Except.ok (calcCore holEmpty pThu mMay { fdA with purchaseRate := 6 }) :=
  (calculateNTNB_ok_iff holEmpty _ _).mpr ⟨pThu, mMay, rfl, rfl, by decide, rfl⟩

/-- C9, witness: the theorem applied to the concrete bond at yields 5 and 6. -/
theorem c9_witness :
    (0 : ℝ) ≤ 5 ∧ (5 : ℝ) ≤ 6 ∧
      calculateNTNB holEmpty { fdA with purchaseRate := 5 } =
        Except.ok (calcCore holEmpty pThu mMay { fdA with purchaseRate := 5 }) ∧
      calculateNTNB holEmpty { fdA with purchaseRate := 6 } =
        Except.ok (calcCore holEmpty pThu mMay { fdA with purchaseRate := 6 }) ∧
      (calcCore holEmpty pThu mMay { fdA with purchaseRate := 6 }).quotation ≤
        (calcCore holEmpty pThu mMay { fdA with purchaseRate := 5 }).quotation ∧
      (calcCore holEmpty pThu mMay { fdA with purchaseRate := 6 }).unitPrice ≤
        (calcCore holEmpty pThu mMay { fdA with purchaseRate := 5 }).unitPrice :=
  ⟨by norm_num, by norm_num, fdA5_ok, fdA6_ok,
    c9_price_antitone_in_yield holEmpty fdA pThu mMay _ _ 5 6 fdA5_ok fdA6_ok rfl rfl
      (by norm_num) (by norm_num) (by norm_num [fdA]) (by norm_num [fdA])⟩

/-! ## C6 — flow-list shape: non-empty, sorted, Interest before Principal -/

lemma nextBizAux_ge (hol : ℤ → Bool) : ∀ (n : ℕ) (d : ℤ), d ≤ nextBizAux hol n d := by
  intro n
  induction n with
  | zero => intro d; simp [nextBizAux]
  | succ k ih =>
    intro d
    rw [nextBizAux]
    by_cases hb : (isWeekend d || hol d) = true
    · rw [if_pos hb]
      have := ih (d + 1)
      omega
    · rw [if_neg hb]

lemma nextBizAux_le_of_good (hol : ℤ → Bool) :
    ∀ (n : ℕ) (d e : ℤ), d ≤ e → (isWeekend e || hol e) = false → nextBizAux hol n d ≤ e := by
  intro n
  induction n with
  | zero => intro d e hde _; simpa [nextBizAux] using hde
  | succ k ih =>
    intro d e hde hgood
    rw [nextBizAux]
    by_cases hb : (isWeekend d || hol d) = true
    · rw [if_pos hb]
      have hne : d ≠ e := by
        intro heq
        rw [heq, hgood] at hb
        exact Bool.false_ne_true hb
      exact ih (d + 1) e (by omega) hgood
    · rw [if_neg hb]
      exact hde

lemma nextBizAux_mono (hol : ℤ → Bool) :
    ∀ (n : ℕ) (d1 d2 : ℤ), d1 ≤ d2 → nextBizAux hol n d1 ≤ nextBizAux hol n d2 := by
  intro n
  induction n with
  | zero => intro d1 d2 h; simpa [nextBizAux] using h
  | succ k ih =>
    intro d1 d2 h
    rw [nextBizAux, nextBizAux]
    by_cases h1 : (isWeekend d1 || hol d1) = true
    · rw [if_pos h1]
      by_cases h2 : (isWeekend d2 || hol d2) = true
      · rw [if_pos h2]
        by_cases heq : d1 = d2
        · rw [heq]
        · exact ih (d1 + 1) (d2 + 1) (by omega)
      · rw [if_neg h2]
        have hne : d1 ≠ d2 := by
          intro hx
          rw [hx, (Bool.not_eq_true _).mp h2] at h1
          exact Bool.false_ne_true h1
        exact nextBizAux_le_of_good hol k (d1 + 1) d2 (by omega)
          ((Bool.not_eq_true _).mp h2)
    · rw [if_neg h1]
      by_cases h2 : (isWeekend d2 || hol d2) = true
      · rw [if_pos h2]
        calc d1 ≤ d2 := h
          _ ≤ d2 + 1 := by omega
          _ ≤ nextBizAux hol k (d2 + 1) := nextBizAux_ge hol k (d2 + 1)
      · rw [if_neg h2]
        exact h

lemma getNextBusinessDay_mono (hol : ℤ → Bool) {d1 d2 : ℤ} (h : d1 ≤ d2) :
    getNextBusinessDay hol d1 ≤ getNextBusinessDay hol d2 :=
  nextBizAux_mono hol 4000 d1 d2 h

lemma getNextBusinessDay_ge (hol : ℤ → Bool) (d : ℤ) : d ≤ getNextBusinessDay hol d :=
  nextBizAux_ge hol 4000 d

lemma days_15_step (y m : ℤ) (h0 : 0 ≤ m) (h1 : m ≤ 10) :
    daysFromCivil y m 15 ≤ daysFromCivil y (m + 1) 15 := by
  have hnm := days_next_month y m h0 h1
  have hdd := daysFromCivil_day_diff y (m + 1) 1 15
  omega

lemma days_15_mono_k (y m : ℤ) (h0 : 0 ≤ m) :
    ∀ (k : ℕ), m + k ≤ 11 → daysFromCivil y m 15 ≤ daysFromCivil y (m + k) 15 := by
  intro k
  induction k with
  | zero => intro _; simp
  | succ n ih =>
    intro hk
    have hn : m + (n : ℤ) ≤ 11 := by push_cast at hk ⊢; omega
    have h2 := days_15_step y (m + n) (by omega) (by push_cast at hk; omega)
    have h3 : m + ((n : ℕ) + 1 : ℕ) = m + (n : ℤ) + 1 := by push_cast; ring
    rw [h3]
    exact le_trans (ih hn) h2

lemma days_15_year_step (y : ℤ) (m1 m2 : ℤ) (hm1a : 0 ≤ m1) (hm1b : m1 ≤ 11)
    (hm2a : 0 ≤ m2) (hm2b : m2 ≤ 11) :
    daysFromCivil y m1 15 ≤ daysFromCivil (y + 1) m2 15 := by
  have ha : daysFromCivil y m1 15 ≤ daysFromCivil y 11 15 := by
    have := days_15_mono_k y m1 hm1a (11 - m1).toNat (by omega)
    have hx : m1 + ((11 - m1).toNat : ℤ) = 11 := by omega
    rw [hx] at this
    exact this
  have hw := days_year_wrap y
  have hdd := daysFromCivil_day_diff (y + 1) 0 1 15
  have hb : daysFromCivil (y + 1) 0 15 ≤ daysFromCivil (y + 1) m2 15 := by
    have := days_15_mono_k (y + 1) 0 (by omega) m2.toNat (by omega)
    have hx : (0 : ℤ) + (m2.toNat : ℤ) = m2 := by omega
    rw [hx] at this
    exact this
  omega

lemma couponMonths_cases (mdt : JDate) :
    couponMonths mdt = (1, 7) ∨ couponMonths mdt = (4, 10) := by
  unfold couponMonths
  by_cases h : mdt.month = 1 ∨ mdt.month = 7
  · left; rw [if_pos h]
  · right; rw [if_neg h]

/-- The year-indexed grid of cycle-month 15ths, as day numbers. -/
def gridL (c1 c2 y0 : ℤ) (k : ℕ) : List ℤ :=
  (List.range k).flatMap
    (fun i => [daysFromCivil (y0 + i) c1 15, daysFromCivil (y0 + i) c2 15])

lemma gridL_succ (c1 c2 y0 : ℤ) (k : ℕ) :
    gridL c1 c2 y0 (k + 1) = gridL c1 c2 y0 k ++
      [daysFromCivil (y0 + k) c1 15, daysFromCivil (y0 + k) c2 15] := by
  unfold gridL
  rw [List.range_succ, List.flatMap_append]
  simp

lemma gridL_bound (c1 c2 : ℤ) (h1 : 0 ≤ c1) (h2 : c1 ≤ c2) (h3 : c2 ≤ 11) :
    ∀ (k : ℕ) (y0 x : ℤ), x ∈ gridL c1 c2 y0 k → x ≤ daysFromCivil (y0 + k) c1 15 := by
  intro k
  induction k with
  | zero => intro y0 x hx; simp [gridL] at hx
  | succ n ih =>
    intro y0 x hx
    rw [gridL_succ] at hx
    have hcast : y0 + ((n : ℕ) + 1 : ℕ) = (y0 + n) + 1 := by push_cast; ring
    rw [hcast]
    have hstep := days_15_year_step (y0 + n) c1 c1 h1 (by omega) h1 (by omega)
    rcases List.mem_append.mp hx with hold | hnew
    · exact le_trans (ih y0 x hold) hstep
    · rcases List.mem_cons.mp hnew with he | hnew2
      · rw [he]; exact hstep
      · rcases List.mem_cons.mp hnew2 with he2 | hnil
        · rw [he2]
          exact days_15_year_step (y0 + n) c2 c1 (by omega) h3 h1 (by omega)
        · simp at hnil

lemma gridL_pairwise (c1 c2 : ℤ) (h1 : 0 ≤ c1) (h2 : c1 ≤ c2) (h3 : c2 ≤ 11) :
    ∀ (k : ℕ) (y0 : ℤ), List.Pairwise (· ≤ ·) (gridL c1 c2 y0 k) := by
  intro k
  induction k with
  | zero => intro y0; simp [gridL]
  | succ n ih =>
    intro y0
    rw [gridL_succ]
    apply List.pairwise_append.mpr
    refine ⟨ih y0, ?_, ?_⟩
    · have hw : daysFromCivil (y0 + n) c1 15 ≤ daysFromCivil (y0 + n) c2 15 := by
        have := days_15_mono_k (y0 + n) c1 h1 (c2 - c1).toNat (by omega)
        have hx : c1 + ((c2 - c1).toNat : ℤ) = c2 := by omega
        rw [hx] at this
        exact this
      simp [hw]
    · intro a ha b hb
      have hbound := gridL_bound c1 c2 h1 h2 h3 n y0 a ha
      have hw : daysFromCivil (y0 + n) c1 15 ≤ daysFromCivil (y0 + n) c2 15 := by
        have := days_15_mono_k (y0 + n) c1 h1 (c2 - c1).toNat (by omega)
        have hx : c1 + ((c2 - c1).toNat : ℤ) = c2 := by omega
        rw [hx] at this
        exact this
      rcases List.mem_cons.mp hb with he | hb2
      · rw [he]; exact hbound
      · rcases List.mem_cons.mp hb2 with he2 | hnil
        · rw [he2]; exact le_trans hbound hw
        · simp at hnil

lemma potentialDates_pairwise (p mdt : JDate) :
    List.Pairwise (· ≤ ·) (potentialDates p mdt) := by
  unfold potentialDates
  have key : ∀ (c1 c2 : ℤ), 0 ≤ c1 → c1 ≤ c2 → c2 ≤ 11 →
      List.Pairwise (· ≤ ·)
        ((List.range (mdt.year - p.year + 1).toNat).flatMap
          (fun i => [(mkUTC (p.year + i) c1 15).days, (mkUTC (p.year + i) c2 15).days])) := by
    intro c1 c2 ha hb hcc
    have hfun : (fun (i : ℕ) => [(mkUTC (p.year + i) c1 15).days, (mkUTC (p.year + i) c2 15).days])
        = fun (i : ℕ) => [daysFromCivil (p.year + i) c1 15, daysFromCivil (p.year + i) c2 15] := by
      funext i
      rw [mkUTC_id _ _ _ ha (by omega), mkUTC_id _ _ _ (by omega) hcc]
      rfl
    rw [hfun]
    exact gridL_pairwise c1 c2 ha hb hcc _ p.year
  rcases couponMonths_cases mdt with hc | hc <;> rw [hc] <;> dsimp only
  · exact key 1 7 (by norm_num) (by norm_num) (by norm_num)
  · exact key 4 10 (by norm_num) (by norm_num) (by norm_num)

lemma flowsOfUnsorted_pairwise (hol : ℤ → Bool) (p mdt : JDate) :
    List.Pairwise (fun a b : FlowEv => a.date ≤ b.date) (flowsOfUnsorted hol p mdt) := by
  unfold flowsOfUnsorted
  apply List.pairwise_append.mpr
  refine ⟨?_, by simp, ?_⟩
  · apply List.pairwise_map.mpr
    apply List.Pairwise.imp (fun hab => getNextBusinessDay_mono hol hab)
    exact (potentialDates_pairwise p mdt).filter _
  · intro a ha b hb
    simp only [List.mem_singleton] at hb
    obtain ⟨d, hd, had⟩ := List.mem_map.mp ha
    have hdm : d ≤ mdt.days := by
      have := (List.mem_filter.mp hd).2
      simp only [Bool.and_eq_true, decide_eq_true_eq] at this
      exact this.2
    rw [hb, ← had]
    exact getNextBusinessDay_mono hol hdm

lemma sortedFlows_eq_unsorted (hol : ℤ → Bool) (p mdt : JDate) :
    sortedFlows hol p mdt = flowsOfUnsorted hol p mdt := by
  unfold sortedFlows
  apply List.mergeSort_of_sorted
  exact (flowsOfUnsorted_pairwise hol p mdt).imp (fun hab => decide_eq_true hab)

lemma buildFlows_append (hol : ℤ → Bool) (pD : ℤ) (vna rd qty : ℝ) :
    ∀ (l1 l2 : List FlowEv) (cum : ℝ), ∃ c2 : ℝ,
      buildFlows hol pD vna rd qty (l1 ++ l2) cum =
        buildFlows hol pD vna rd qty l1 cum ++ buildFlows hol pD vna rd qty l2 c2 := by
  intro l1
  induction l1 with
  | nil => intro l2 cum; exact ⟨cum, by simp [buildFlows]⟩
  | cons f rest ih =>
    intro l2 cum
    rw [List.cons_append, buildFlows, buildFlows]
    obtain ⟨c2, hc2⟩ := ih l2
      (cum + (match f.ftype with
        | FType.J => truncateR (vna * SEMI_ANNUAL_COUPON_RATE) 2
        | FType.P => truncateR vna 2) /
          (1 + rd) ^ ((countBusinessDays hol pD f.date : ℝ) / 252))
    exact ⟨c2, by rw [hc2, List.cons_append]⟩

lemma buildFlows_dates_pairwise (hol : ℤ → Bool) (pD : ℤ) (vna rd qty : ℝ) :
    ∀ (l : List FlowEv) (cum : ℝ),
      List.Pairwise (fun a b : FlowEv => a.date ≤ b.date) l →
      List.Pairwise (fun a b : CashFlow => a.date ≤ b.date)
        (buildFlows hol pD vna rd qty l cum) := by
  intro l
  induction l with
  | nil => intro cum _; simp [buildFlows]
  | cons f rest ih =>
    intro cum hpw
    rw [buildFlows]
    rw [List.pairwise_cons] at hpw ⊢
    refine ⟨?_, ih _ hpw.2⟩
    intro cf hcf
    obtain ⟨g, hg, hdate, _, _, _, _⟩ :=
      buildFlows_mem hol pD vna rd qty rest _ cf hcf
    rw [hdate]
    exact hpw.1 g hg

/-- C6, confirmed: for every priced bond the cash-flow list is non-empty (it
always contains the maturity principal event), its dates are non-decreasing,
and an Interest event never appears after the Principal event it shares a
date with (the principal is the final element). -/
theorem c6_flow_list_ordering (hol : ℤ → Bool) (fd : FormData) (r : CalculationResult)
    (h : calculateNTNB hol fd = Except.ok r) :
    r.cashFlows ≠ [] ∧
    List.Pairwise (fun a b : CashFlow => a.date ≤ b.date) r.cashFlows ∧
    ∀ (i j : Fin r.cashFlows.length),
      (r.cashFlows.get i).ftype = FType.J → (r.cashFlows.get j).ftype = FType.P →
      (r.cashFlows.get i).date = (r.cashFlows.get j).date → (i : ℕ) < (j : ℕ) := by
  obtain ⟨p, mdt, hp, hm, hlt, hr⟩ := (calculateNTNB_ok_iff hol fd r).mp h
  subst hr
  have hpair : List.Pairwise (fun a b : CashFlow => a.date ≤ b.date)
      (calcCore hol p mdt fd).cashFlows := by
    rw [calcCore_cashFlows, sortedFlows_eq_unsorted]
    exact buildFlows_dates_pairwise hol p.days (vnaOf fd p) (fd.purchaseRate / 100)
      fd.quantity _ 0 (flowsOfUnsorted_pairwise hol p mdt)
  obtain ⟨c2, hsplit⟩ := buildFlows_append hol p.days (vnaOf fd p) (fd.purchaseRate / 100)
    fd.quantity
    (((potentialDates p mdt).filter
        (fun d => decide (p.days < d) && decide (d ≤ mdt.days))).map
      (fun d => { date := getNextBusinessDay hol d, ftype := FType.J }))
    [{ date := getNextBusinessDay hol mdt.days, ftype := FType.P }] 0
  have hcf : (calcCore hol p mdt fd).cashFlows =
      buildFlows hol p.days (vnaOf fd p) (fd.purchaseRate / 100) fd.quantity
        (((potentialDates p mdt).filter
            (fun d => decide (p.days < d) && decide (d ≤ mdt.days))).map
          (fun d => { date := getNextBusinessDay hol d, ftype := FType.J })) 0 ++
      buildFlows hol p.days (vnaOf fd p) (fd.purchaseRate / 100) fd.quantity
        [{ date := getNextBusinessDay hol mdt.days, ftype := FType.P }] c2 := by
    rw [calcCore_cashFlows, sortedFlows_eq_unsorted]
    exact hsplit
  set pre := buildFlows hol p.days (vnaOf fd p) (fd.purchaseRate / 100) fd.quantity
    (((potentialDates p mdt).filter
        (fun d => decide (p.days < d) && decide (d ≤ mdt.days))).map
      (fun d => { date := getNextBusinessDay hol d, ftype := FType.J })) 0 with hpre
  have hsingle : ∃ prin : CashFlow,
      buildFlows hol p.days (vnaOf fd p) (fd.purchaseRate / 100) fd.quantity
        [{ date := getNextBusinessDay hol mdt.days, ftype := FType.P }] c2 = [prin] ∧
      prin.ftype = FType.P := ⟨_, rfl, rfl⟩
  obtain ⟨prin, hprin, hprinP⟩ := hsingle
  rw [hprin] at hcf
  have hpreJ : ∀ cf ∈ pre, cf.ftype = FType.J := by
    intro cf hcf2
    obtain ⟨f, hf, _, hty, _, _, _⟩ :=
      buildFlows_mem hol p.days (vnaOf fd p) (fd.purchaseRate / 100) fd.quantity _ _ cf hcf2
    obtain ⟨d, _, hd⟩ := List.mem_map.mp hf
    rw [hty, ← hd]
  refine ⟨by rw [hcf]; simp, hpair, ?_⟩
  intro i j hiJ hjP hdate
  have hlen : (calcCore hol p mdt fd).cashFlows.length = pre.length + 1 := by
    rw [hcf]
    simp
  have hj : (j : ℕ) = pre.length := by
    by_contra hne
    have hjlt : (j : ℕ) < pre.length := by
      have hjv := j.isLt
      omega
    have hgj := List.get_of_eq hcf j
    rw [List.get_append (j : ℕ) hjlt] at hgj
    have hJ2 : ((calcCore hol p mdt fd).cashFlows.get j).ftype = FType.J := by
      rw [hgj]
      exact hpreJ _ (List.get_mem pre (j : ℕ) hjlt)
    rw [hjP] at hJ2
    exact FType.noConfusion hJ2
  have hine : (i : ℕ) ≠ (j : ℕ) := by
    intro he
    have hij : i = j := Fin.ext he
    rw [hij, hjP] at hiJ
    exact FType.noConfusion hiJ
  have hilt := i.isLt
  omega

/-- C6, witness: the theorem applied to the concrete Thursday bond (whose
interest and principal flows share the date 2025-05-15). -/
theorem c6_witness :
    calculateNTNB holEmpty fdA = Except.ok (calcCore holEmpty pThu mMay fdA) ∧
      ((calcCore holEmpty pThu mMay fdA).cashFlows ≠ [] ∧
        List.Pairwise (fun a b : CashFlow => a.date ≤ b.date)
          (calcCore holEmpty pThu mMay fdA).cashFlows ∧
        ∀ (i j : Fin (calcCore holEmpty pThu mMay fdA).cashFlows.length),
          ((calcCore holEmpty pThu mMay fdA).cashFlows.get i).ftype = FType.J →
          ((calcCore holEmpty pThu mMay fdA).cashFlows.get j).ftype = FType.P →
          ((calcCore holEmpty pThu mMay fdA).cashFlows.get i).date =
            ((calcCore holEmpty pThu mMay fdA).cashFlows.get j).date → (i : ℕ) < (j : ℕ)) :=
  ⟨fdA_ok, c6_flow_list_ordering holEmpty fdA _ fdA_ok⟩

/-! ## C8 — portfolio consolidation is permutation-invariant -/

/-- The zero entry a fresh year starts from. -/
noncomputable def zeroE (y : ℤ) : YEntry :=
  { year := y, totalValue := 0, couponValue := 0, principalValue := 0, flowCount := 0 }

/-- The update `stepFlow` applies to the fetched (or zero) entry. -/
noncomputable def addFlowE (e : YEntry) (f : CashFlow) : YEntry :=
  match f.ftype with
  | FType.J =>
    { year := yearOfDays f.date, totalValue := e.totalValue + f.futureValue,
      couponValue := e.couponValue + f.futureValue,
      principalValue := e.principalValue, flowCount := e.flowCount + 1 }
  | FType.P =>
    { year := yearOfDays f.date, totalValue := e.totalValue + f.futureValue,
      couponValue := e.couponValue,
      principalValue := e.principalValue + f.futureValue, flowCount := e.flowCount + 1 }

lemma addFlowE_year (e : YEntry) (f : CashFlow) : (addFlowE e f).year = yearOfDays f.date := by
  unfold addFlowE
  cases f.ftype <;> rfl

lemma stepFlow_eq (m : List YEntry) (f : CashFlow) :
    stepFlow m f = msSet m (addFlowE ((msGet m (yearOfDays f.date)).getD
      (zeroE (yearOfDays f.date))) f) := by
  unfold stepFlow addFlowE zeroE
  cases h : f.ftype <;> simp [h]

lemma msGet_msSet_same (m : List YEntry) (e : YEntry) : msGet (msSet m e) e.year = some e := by
  unfold msSet
  by_cases hany : m.any (fun x => decide (x.year = e.year)) = true
  · rw [if_pos hany]
    obtain ⟨x0, hx0, hx0y⟩ := List.any_eq_true.mp hany
    clear hany
    induction m with
    | nil => simp at hx0
    | cons a rest ih =>
      rw [List.map_cons]
      by_cases ha : a.year = e.year
      · rw [if_pos ha]
        unfold msGet
        rw [List.find?_cons]
        simp
      · rw [if_neg ha]
        unfold msGet
        rw [List.find?_cons]
        have : (decide (a.year = e.year)) = false := by simp [ha]
        rw [this]
        rcases List.mem_cons.mp hx0 with he | hm2
        · rw [he] at hx0y
          simp at hx0y
          exact absurd hx0y ha
        · exact ih hm2
  · rw [if_neg hany]
    unfold msGet
    rw [List.find?_append]
    have hnone : m.find? (fun x => decide (x.year = e.year)) = none := by
      rw [List.find?_eq_none]
      intro x hx
      simp only [decide_eq_true_eq]
      intro hxy
      exact hany (List.any_eq_true.mpr ⟨x, hx, by simp [hxy]⟩)
    rw [hnone]
    simp

lemma msGet_msSet_other (m : List YEntry) (e : YEntry) (y : ℤ) (hne : y ≠ e.year) :
    msGet (msSet m e) y = msGet m y := by
  unfold msSet
  by_cases hany : m.any (fun x => decide (x.year = e.year)) = true
  · rw [if_pos hany]
    clear hany
    induction m with
    | nil => rfl
    | cons a rest ih =>
      rw [List.map_cons]
      unfold msGet
      rw [List.find?_cons, List.find?_cons]
      by_cases ha : a.year = e.year
      · rw [if_pos ha]
        have h1 : (decide (e.year = y)) = false := by simp; omega
        have h2 : (decide (a.year = y)) = false := by simp; omega
        rw [h1, h2]
        exact ih
      · rw [if_neg ha]
        by_cases hay : a.year = y
        · have : (decide (a.year = y)) = true := by simp [hay]
          rw [this]
        · have : (decide (a.year = y)) = false := by simp [hay]
          rw [this]
          exact ih
  · rw [if_neg hany]
    unfold msGet
    rw [List.find?_append]
    cases hf : m.find? (fun x => decide (x.year = y)) with
    | some v => simp
    | none =>
      simp only [Option.none_or]
      have hd : (decide (e.year = y)) = false := decide_eq_false (Ne.symm hne)
      simp [List.find?_cons, hd]

/-- The entry a year currently holds, defaulting to the zero entry. -/
noncomputable def entryVal (m : List YEntry) (y : ℤ) : YEntry := (msGet m y).getD (zeroE y)

lemma entryVal_step_same (m : List YEntry) (f : CashFlow) :
    entryVal (stepFlow m f) (yearOfDays f.date) =
      addFlowE (entryVal m (yearOfDays f.date)) f := by
  unfold entryVal
  rw [stepFlow_eq]
  have h := msGet_msSet_same m (addFlowE ((msGet m (yearOfDays f.date)).getD
    (zeroE (yearOfDays f.date))) f)
  rw [addFlowE_year] at h
  rw [h]
  rfl

lemma entryVal_step_other (m : List YEntry) (f : CashFlow) (y : ℤ)
    (hne : y ≠ yearOfDays f.date) : entryVal (stepFlow m f) y = entryVal m y := by
  unfold entryVal
  rw [stepFlow_eq, msGet_msSet_other]
  rw [addFlowE_year]
  exact hne

lemma isSome_step (m : List YEntry) (f : CashFlow) (y : ℤ) :
    (msGet (stepFlow m f) y).isSome =
      ((msGet m y).isSome || decide (y = yearOfDays f.date)) := by
  by_cases hy : y = yearOfDays f.date
  · rw [hy]
    rw [stepFlow_eq]
    have h := msGet_msSet_same m (addFlowE ((msGet m (yearOfDays f.date)).getD
      (zeroE (yearOfDays f.date))) f)
    rw [addFlowE_year] at h
    rw [h]
    simp
  · rw [stepFlow_eq, msGet_msSet_other _ _ _ (by rw [addFlowE_year]; exact hy)]
    have : (decide (y = yearOfDays f.date)) = false := decide_eq_false hy
    rw [this]
    simp

lemma entryVal_foldl (y : ℤ) :
    ∀ (F : List CashFlow) (m : List YEntry),
      entryVal (F.foldl stepFlow m) y =
        (F.filter (fun f => decide (yearOfDays f.date = y))).foldl addFlowE (entryVal m y) := by
  intro F
  induction F with
  | nil => intro m; simp
  | cons f rest ih =>
    intro m
    rw [List.foldl_cons, ih]
    by_cases hy : yearOfDays f.date = y
    · rw [List.filter_cons_of_pos (by simp [hy]), List.foldl_cons]
      rw [← hy, entryVal_step_same]
    · rw [List.filter_cons_of_neg (by simp [hy])]
      rw [entryVal_step_other m f y (fun he => hy he.symm)]

lemma isSome_foldl (y : ℤ) :
    ∀ (F : List CashFlow) (m : List YEntry),
      (msGet (F.foldl stepFlow m) y).isSome =
        ((msGet m y).isSome || F.any (fun f => decide (yearOfDays f.date = y))) := by
  intro F
  induction F with
  | nil => intro m; simp
  | cons f rest ih =>
    intro m
    rw [List.foldl_cons, ih, isSome_step]
    by_cases hy : y = yearOfDays f.date
    · have h1 : (decide (y = yearOfDays f.date)) = true := decide_eq_true hy
      have h2 : (decide (yearOfDays f.date = y)) = true := decide_eq_true hy.symm
      simp [h1, h2]
    · have h1 : (decide (y = yearOfDays f.date)) = false := decide_eq_false hy
      have h2 : (decide (yearOfDays f.date = y)) = false :=
        decide_eq_false (fun he => hy he.symm)
      simp [h1, h2]

lemma foldl_addFlowE_total (L : List CashFlow) :
    ∀ e : YEntry, (L.foldl addFlowE e).totalValue =
      e.totalValue + (L.map (fun f => f.futureValue)).sum := by
  induction L with
  | nil => intro e; simp
  | cons f rest ih =>
    intro e
    rw [List.foldl_cons, ih, List.map_cons, List.sum_cons]
    have : (addFlowE e f).totalValue = e.totalValue + f.futureValue := by
      unfold addFlowE
      cases f.ftype <;> rfl
    rw [this]
    ring

lemma foldl_addFlowE_coupon (L : List CashFlow) :
    ∀ e : YEntry, (L.foldl addFlowE e).couponValue =
      e.couponValue + (L.map (fun f =>
        match f.ftype with | FType.J => f.futureValue | FType.P => 0)).sum := by
  induction L with
  | nil => intro e; simp
  | cons f rest ih =>
    intro e
    rw [List.foldl_cons, ih, List.map_cons, List.sum_cons]
    have : (addFlowE e f).couponValue = e.couponValue +
        (match f.ftype with | FType.J => f.futureValue | FType.P => 0) := by
      unfold addFlowE
      cases f.ftype
      · rfl
      · simp
    rw [this]
    ring

lemma foldl_addFlowE_principal (L : List CashFlow) :
    ∀ e : YEntry, (L.foldl addFlowE e).principalValue =
      e.principalValue + (L.map (fun f =>
        match f.ftype with | FType.J => 0 | FType.P => f.futureValue)).sum := by
  induction L with
  | nil => intro e; simp
  | cons f rest ih =>
    intro e
    rw [List.foldl_cons, ih, List.map_cons, List.sum_cons]
    have : (addFlowE e f).principalValue = e.principalValue +
        (match f.ftype with | FType.J => 0 | FType.P => f.futureValue) := by
      unfold addFlowE
      cases f.ftype
      · simp
      · rfl
    rw [this]
    ring

lemma foldl_addFlowE_count (L : List CashFlow) :
    ∀ e : YEntry, (L.foldl addFlowE e).flowCount = e.flowCount + L.length := by
  induction L with
  | nil => intro e; simp
  | cons f rest ih =>
    intro e
    rw [List.foldl_cons, ih, List.length_cons]
    have : (addFlowE e f).flowCount = e.flowCount + 1 := by
      unfold addFlowE
      cases f.ftype <;> rfl
    rw [this]
    ring

lemma foldl_addFlowE_year (L : List CashFlow) :
    ∀ e : YEntry, (∀ f ∈ L, yearOfDays f.date = e.year) →
      (L.foldl addFlowE e).year = e.year := by
  induction L with
  | nil => intro e _; rfl
  | cons f rest ih =>
    intro e hall
    rw [List.foldl_cons]
    have hy : (addFlowE e f).year = e.year := by
      rw [addFlowE_year]
      exact hall f (List.mem_cons_self f rest)
    rw [ih (addFlowE e f) (fun g hg => by rw [hy]; exact hall g (List.mem_cons_of_mem f hg))]
    exact hy

lemma YEntry_ext (a b : YEntry) (h1 : a.year = b.year) (h2 : a.totalValue = b.totalValue)
    (h3 : a.couponValue = b.couponValue) (h4 : a.principalValue = b.principalValue)
    (h5 : a.flowCount = b.flowCount) : a = b := by
  cases a
  cases b
  simp_all

lemma msGet_foldl_perm (F1 F2 : List CashFlow) (hperm : F1.Perm F2) (y : ℤ) :
    msGet (F1.foldl stepFlow []) y = msGet (F2.foldl stepFlow []) y := by
  have hany : F1.any (fun f => decide (yearOfDays f.date = y)) =
      F2.any (fun f => decide (yearOfDays f.date = y)) := by
    rw [Bool.eq_iff_iff, List.any_eq_true, List.any_eq_true]
    constructor
    · rintro ⟨x, hx, hpx⟩
      exact ⟨x, hperm.mem_iff.mp hx, hpx⟩
    · rintro ⟨x, hx, hpx⟩
      exact ⟨x, hperm.mem_iff.mpr hx, hpx⟩
  have hsome : (msGet (F1.foldl stepFlow []) y).isSome =
      (msGet (F2.foldl stepFlow []) y).isSome := by
    rw [isSome_foldl, isSome_foldl, hany]
  have hval : entryVal (F1.foldl stepFlow []) y = entryVal (F2.foldl stepFlow []) y := by
    rw [entryVal_foldl, entryVal_foldl]
    have hLp : (F1.filter (fun f => decide (yearOfDays f.date = y))).Perm
        (F2.filter (fun f => decide (yearOfDays f.date = y))) := hperm.filter _
    have hall1 : ∀ f ∈ F1.filter (fun f => decide (yearOfDays f.date = y)),
        yearOfDays f.date = (entryVal ([] : List YEntry) y).year := by
      intro f hf
      have h := List.of_mem_filter hf
      simp only [decide_eq_true_eq] at h
      rw [h]
      rfl
    have hall2 : ∀ f ∈ F2.filter (fun f => decide (yearOfDays f.date = y)),
        yearOfDays f.date = (entryVal ([] : List YEntry) y).year := by
      intro f hf
      have h := List.of_mem_filter hf
      simp only [decide_eq_true_eq] at h
      rw [h]
      rfl
    apply YEntry_ext
    · rw [foldl_addFlowE_year _ _ hall1, foldl_addFlowE_year _ _ hall2]
    · rw [foldl_addFlowE_total, foldl_addFlowE_total, (hLp.map _).sum_eq]
    · rw [foldl_addFlowE_coupon, foldl_addFlowE_coupon, (hLp.map _).sum_eq]
    · rw [foldl_addFlowE_principal, foldl_addFlowE_principal, (hLp.map _).sum_eq]
    · rw [foldl_addFlowE_count, foldl_addFlowE_count, hLp.length_eq]
  cases h1 : msGet (F1.foldl stepFlow []) y with
  | none =>
    cases h2 : msGet (F2.foldl stepFlow []) y with
    | none => rfl
    | some v2 => rw [h1, h2] at hsome; simp at hsome
  | some v1 =>
    cases h2 : msGet (F2.foldl stepFlow []) y with
    | none => rw [h1, h2] at hsome; simp at hsome
    | some v2 =>
      unfold entryVal at hval
      rw [h1, h2] at hval
      simp only [Option.getD_some] at hval
      rw [hval]

/-- Distinct year keys, the JavaScript `Map` invariant. -/
def keysNodup (m : List YEntry) : Prop := List.Pairwise (fun a b : YEntry => a.year ≠ b.year) m

lemma keysNodup_msSet (m : List YEntry) (e : YEntry) (h : keysNodup m) :
    keysNodup (msSet m e) := by
  unfold msSet
  by_cases hany : m.any (fun x => decide (x.year = e.year)) = true
  · rw [if_pos hany]
    apply List.Pairwise.map _ _ h
    intro a b hab
    have hya : ((if a.year = e.year then e else a)).year = a.year := by
      by_cases hx : a.year = e.year
      · rw [if_pos hx, ← hx]
      · rw [if_neg hx]
    have hyb : ((if b.year = e.year then e else b)).year = b.year := by
      by_cases hx : b.year = e.year
      · rw [if_pos hx, ← hx]
      · rw [if_neg hx]
    rw [hya, hyb]
    exact hab
  · rw [if_neg hany]
    apply List.pairwise_append.mpr
    refine ⟨h, List.pairwise_singleton _ _, ?_⟩
    intro a ha b hb
    simp only [List.mem_singleton] at hb
    subst hb
    intro he
    exact hany (List.any_eq_true.mpr ⟨a, ha, decide_eq_true he⟩)

lemma keysNodup_foldl (F : List CashFlow) :
    ∀ m : List YEntry, keysNodup m → keysNodup (F.foldl stepFlow m) := by
  induction F with
  | nil => intro m h; exact h
  | cons f rest ih =>
    intro m h
    rw [List.foldl_cons]
    apply ih
    rw [stepFlow_eq]
    exact keysNodup_msSet _ _ h

lemma msGet_of_mem (m : List YEntry) (h : keysNodup m) (e : YEntry) (he : e ∈ m) :
    msGet m e.year = some e := by
  induction m with
  | nil => simp at he
  | cons a rest ih =>
    unfold msGet
    rw [List.find?_cons]
    rcases List.mem_cons.mp he with he1 | hr
    · subst he1
      simp
    · have hane : a.year ≠ e.year := (List.pairwise_cons.mp h).1 e hr
      rw [decide_eq_false hane]
      exact ih (List.pairwise_cons.mp h).2 hr

lemma yearMap_perm (F1 F2 : List CashFlow) (hperm : F1.Perm F2) :
    (F1.foldl stepFlow []).Perm (F2.foldl stepFlow []) := by
  have hn1 : keysNodup (F1.foldl stepFlow []) := keysNodup_foldl F1 [] (by simp [keysNodup])
  have hn2 : keysNodup (F2.foldl stepFlow []) := keysNodup_foldl F2 [] (by simp [keysNodup])
  have hnd1 : (F1.foldl stepFlow []).Nodup :=
    hn1.imp (fun hab he => hab (congrArg YEntry.year he))
  have hnd2 : (F2.foldl stepFlow []).Nodup :=
    hn2.imp (fun hab he => hab (congrArg YEntry.year he))
  apply (List.perm_ext_iff_of_nodup hnd1 hnd2).mpr
  intro e
  constructor
  · intro he
    have h := msGet_of_mem _ hn1 e he
    rw [msGet_foldl_perm F1 F2 hperm e.year] at h
    exact List.mem_of_find?_eq_some h
  · intro he
    have h := msGet_of_mem _ hn2 e he
    rw [msGet_foldl_perm F2 F1 hperm.symm e.year] at h
    exact List.mem_of_find?_eq_some h

instance : IsAntisymm YEntry (fun a b => a.year < b.year) :=
  ⟨fun a b h1 h2 => absurd (h1.trans h2) (lt_irrefl _)⟩

lemma consolidated_eq (F1 F2 : List CashFlow) (hperm : F1.Perm F2) :
    (F1.foldl stepFlow []).mergeSort (fun a b => decide (a.year ≤ b.year)) =
      (F2.foldl stepFlow []).mergeSort (fun a b => decide (a.year ≤ b.year)) := by
  have htrans : ∀ (a b c : YEntry), (decide (a.year ≤ b.year)) = true →
      (decide (b.year ≤ c.year)) = true → (decide (a.year ≤ c.year)) = true := by
    intro a b c hab hbc
    simp only [decide_eq_true_eq] at hab hbc ⊢
    omega
  have htotal : ∀ (a b : YEntry),
      ((decide (a.year ≤ b.year)) || (decide (b.year ≤ a.year))) = true := by
    intro a b
    simp only [Bool.or_eq_true, decide_eq_true_eq]
    omega
  have hMp := yearMap_perm F1 F2 hperm
  have hSp : ((F1.foldl stepFlow []).mergeSort (fun a b => decide (a.year ≤ b.year))).Perm
      ((F2.foldl stepFlow []).mergeSort (fun a b => decide (a.year ≤ b.year))) :=
    ((List.mergeSort_perm _ _).trans hMp).trans (List.mergeSort_perm _ _).symm
  have hn1 : keysNodup (F1.foldl stepFlow []) := keysNodup_foldl F1 [] (by simp [keysNodup])
  have hn2 : keysNodup (F2.foldl stepFlow []) := keysNodup_foldl F2 [] (by simp [keysNodup])
  have hkey : ∀ (M S : List YEntry), S.Perm M → keysNodup M →
      List.Pairwise (fun a b : YEntry => (decide (a.year ≤ b.year)) = true) S →
      List.Pairwise (fun a b : YEntry => a.year < b.year) S := by
    intro M S hSM hM hle
    have hnodup : (S.map (fun x : YEntry => x.year)).Nodup := by
      have h1 : (M.map (fun x : YEntry => x.year)).Nodup := List.pairwise_map.mpr hM
      exact ((hSM.map _).nodup_iff).mpr h1
    have hne : List.Pairwise (fun a b : YEntry => a.year ≠ b.year) S :=
      List.pairwise_map.mp hnodup
    exact (hle.and hne).imp (fun hab =>
      lt_of_le_of_ne (of_decide_eq_true hab.1) hab.2)
  exact List.eq_of_perm_of_sorted hSp
    (hkey _ _ (List.mergeSort_perm _ _) hn1 (List.sorted_mergeSort htrans htotal _))
    (hkey _ _ (List.mergeSort_perm _ _) hn2 (List.sorted_mergeSort htrans htotal _))

/-- Junk value used only to totalise `getOkC` below. -/
noncomputable def emptyFormData : FormData :=
  { quantity := 0, purchaseDate := none, maturityDate := none, purchaseRate := 0,
    vnaPrevious := 0, projectedIpca := 0 }

/-- Junk pricing result used only to totalise `getOkC` below. -/
noncomputable def emptyResult : CalculationResult :=
  { totalInvestment := 0, unitPrice := 0, quotation := 0, grossAmountReturned := 0,
    grossProfit := 0, duration := 0, cashFlows := [], formData := emptyFormData,
    calculatedVna := 0 }

/-- Extract the result of a successful pricing. -/
noncomputable def getOkC (x : Except String CalculationResult) : CalculationResult :=
  match x with
  | Except.ok r => r
  | Except.error _ => emptyResult

lemma mapResults_ok_map (hol : ℤ → Bool) :
    ∀ (l : List BondItem) (rs : List CalculationResult), mapResults hol l = Except.ok rs →
      rs = l.map (fun b => getOkC (calculateNTNB hol b.toFormData)) := by
  intro l
  induction l with
  | nil =>
    intro rs h
    unfold mapResults at h
    rw [List.map_nil]
    exact (Except.ok.inj h).symm
  | cons b rest ih =>
    intro rs h
    unfold mapResults at h
    cases hb : calculateNTNB hol b.toFormData with
    | error e => rw [hb] at h; simp at h
    | ok r =>
      rw [hb] at h
      cases hrest : mapResults hol rest with
      | error e => rw [hrest] at h; simp at h
      | ok rs2 =>
        rw [hrest] at h
        simp only [] at h
        rw [List.map_cons, ← ih rs2 hrest, ← Except.ok.inj h]
        rw [hb]
        rfl

lemma foldl_flows_flatten :
    ∀ (results : List CalculationResult) (m0 : List YEntry),
      results.foldl (fun m r => r.cashFlows.foldl stepFlow m) m0 =
        ((results.map (fun r => r.cashFlows)).flatten).foldl stepFlow m0 := by
  intro results
  induction results with
  | nil => intro m0; simp
  | cons r rest ih =>
    intro m0
    rw [List.foldl_cons, List.map_cons, List.flatten_cons, List.foldl_append]
    exact ih _

lemma calculatePortfolio_ok (hol : ℤ → Bool) (bonds : List BondItem)
    (rs : List CalculationResult) (h : mapResults hol bonds = Except.ok rs) :
    calculatePortfolio hol bonds = Except.ok
      { individualResults := rs,
        consolidatedFlows := ((rs.foldl (fun m r => r.cashFlows.foldl stepFlow m) []).mergeSort (fun a b => decide (a.year ≤ b.year))),
        totalInvested := rs.foldl (fun s r => s + r.totalInvestment) 0,
        totalReturned := rs.foldl (fun s r => s + r.grossAmountReturned) 0,
        totalProfit := rs.foldl (fun s r => s + r.grossAmountReturned) 0 - rs.foldl (fun s r => s + r.totalInvestment) 0 } := by
  unfold calculatePortfolio
  rw [h]

/-- C8, confirmed: permuting the bond list leaves the consolidated per-year
table identical (same years in the same sorted order, same coupon, principal
and combined totals, same event counts). -/
theorem c8_portfolio_consolidation_commutative (hol : ℤ → Bool)
    (bonds1 bonds2 : List BondItem) (P1 P2 : PortfolioResult)
    (hperm : bonds1.Perm bonds2)
    (h1 : calculatePortfolio hol bonds1 = Except.ok P1)
    (h2 : calculatePortfolio hol bonds2 = Except.ok P2) :
    P1.consolidatedFlows = P2.consolidatedFlows := by
  cases hm1 : mapResults hol bonds1 with
  | error e =>
    rw [calculatePortfolio, hm1] at h1
    simp at h1
  | ok rs1 =>
  cases hm2 : mapResults hol bonds2 with
  | error e =>
    rw [calculatePortfolio, hm2] at h2
    simp at h2
  | ok rs2 =>
  rw [calculatePortfolio_ok hol bonds1 rs1 hm1] at h1
  rw [calculatePortfolio_ok hol bonds2 rs2 hm2] at h2
  have hrsPerm : rs1.Perm rs2 := by
    rw [mapResults_ok_map hol bonds1 rs1 hm1, mapResults_ok_map hol bonds2 rs2 hm2]
    exact hperm.map _
  have hFp : ((rs1.map (fun r => r.cashFlows)).flatten).Perm
      ((rs2.map (fun r => r.cashFlows)).flatten) := (hrsPerm.map _).flatten
  rw [← Except.ok.inj h1, ← Except.ok.inj h2]
  simp only []
  rw [foldl_flows_flatten, foldl_flows_flatten]
  exact consolidated_eq _ _ hFp

/-- Extract the result of a successful portfolio run. -/
noncomputable def getOkP (x : Except String PortfolioResult) : PortfolioResult :=
  match x with
  | Except.ok r => r
  | Except.error _ =>
    { individualResults := [], consolidatedFlows := [], totalInvested := 0,
      totalReturned := 0, totalProfit := 0 }

/-- First concrete bond of the witness portfolio. -/
noncomputable def bond1 : BondItem := { toFormData := fdA, id := "a", name := none }

/-- Second concrete bond of the witness portfolio (Saturday settlement). -/
noncomputable def bond2 : BondItem := { toFormData := fdSat, id := "b", name := none }

/-- The Saturday bond prices successfully. -/
lemma fdSat_ok : calculateNTNB holEmpty fdSat = Except.ok (calcCore holEmpty pSat mMay fdSat) :=
  (calculateNTNB_ok_iff holEmpty fdSat _).mpr ⟨pSat, mMay, rfl, rfl, by decide, rfl⟩

lemma mapResults_bonds12 : mapResults holEmpty [bond1, bond2] =
    Except.ok [calcCore holEmpty pThu mMay fdA, calcCore holEmpty pSat mMay fdSat] := by
  unfold mapResults mapResults
  simp only [bond1, bond2]
  rw [fdA_ok, fdSat_ok]
  rfl

lemma mapResults_bonds21 : mapResults holEmpty [bond2, bond1] =
    Except.ok [calcCore holEmpty pSat mMay fdSat, calcCore holEmpty pThu mMay fdA] := by
  unfold mapResults mapResults
  simp only [bond1, bond2]
  rw [fdA_ok, fdSat_ok]
  rfl

/-- C8, witness: the theorem applied to the two-bond portfolio and its swap. -/
theorem c8_witness :
    List.Perm [bond1, bond2] [bond2, bond1] ∧
    calculatePortfolio holEmpty [bond1, bond2] =
      Except.ok (getOkP (calculatePortfolio holEmpty [bond1, bond2])) ∧
    calculatePortfolio holEmpty [bond2, bond1] =
      Except.ok (getOkP (calculatePortfolio holEmpty [bond2, bond1])) ∧
    (getOkP (calculatePortfolio holEmpty [bond1, bond2])).consolidatedFlows =
      (getOkP (calculatePortfolio holEmpty [bond2, bond1])).consolidatedFlows := by
  have h1 : calculatePortfolio holEmpty [bond1, bond2] =
      Except.ok (getOkP (calculatePortfolio holEmpty [bond1, bond2])) := by
    rw [calculatePortfolio_ok holEmpty [bond1, bond2] _ mapResults_bonds12]
    rfl
  have h2 : calculatePortfolio holEmpty [bond2, bond1] =
      Except.ok (getOkP (calculatePortfolio holEmpty [bond2, bond1])) := by
    rw [calculatePortfolio_ok holEmpty [bond2, bond1] _ mapResults_bonds21]
    rfl
  exact ⟨List.Perm.swap bond2 bond1 [], h1, h2,
    c8_portfolio_consolidation_commutative holEmpty [bond1, bond2] [bond2, bond1] _ _
      (List.Perm.swap bond2 bond1 []) h1 h2⟩
